import Mathlib

/-!
# Decode, crop and sample pipeline of `src/main.cpp`

A shallow embedding of the pixel pipeline of the ESP32 / ArduCAM / Edge Impulse
sketch: `arducam_transfer`, `jpeg_store_data`, `r565_to_rgb`, `cutout_get_data`
and the capture part of `loop`.

Conventions of the embedding.

* C `int` and `size_t` values are mathematical integers (`Int`, `Nat`): the sketch
  works on a 96 x 96 raster, far from the wrap-around range of 32-bit words.
  Division of two `int`s is `Int.tdiv` (C truncates toward zero). Where the C code
  narrows a value on purpose (the store into a `uint8_t` channel, the `uint16_t`
  byte swap) the narrowing is an explicit `% 256` or `% 65536`.
* A C buffer is a function from the cell offset (relative to the start of the
  array) to the value of the cell; a store is `Function.update`.
* The JPEG decoder, the camera and the classifier are external libraries. The
  decoder is represented by the public fields the sketch reads (`MCUWidth`,
  `MCUHeight`, `MCUSPerRow`, `MCUSPerCol`) and by the list of blocks that the
  successive calls of `JpegDec.read()` yield; each block carries `MCUx`, `MCUy`
  and the pixel data behind `pImage`.
* `EI_CLASSIFIER_INPUT_WIDTH` and `EI_CLASSIFIER_INPUT_HEIGHT` come from a header
  of the classifier library, so the cutout size is a parameter.
* The `float` cells filled by `cutout_get_data` hold integers below `2 ^ 24`,
  which a single precision float represents exactly; a cell is modelled by the
  integer it holds.
-/

namespace ArducamEI

/-! ## Configuration constants -/

/-- The compile-time constants of the sketch: the size of the raw frame buffer
(`FRAME_BUFFER_COLS`, `FRAME_BUFFER_ROWS`) and the size of the cutout fed to the
classifier (`CUTOUT_COLS`, `CUTOUT_ROWS`). -/
structure FrameConfig where
  FRAME_BUFFER_COLS : Nat
  FRAME_BUFFER_ROWS : Nat
  CUTOUT_COLS : Nat
  CUTOUT_ROWS : Nat

/-- The configuration of `main.cpp`: a 96 x 96 frame buffer; the cutout size is
the classifier input size, defined outside the sketch. -/
def sketchConfig (EI_CLASSIFIER_INPUT_WIDTH EI_CLASSIFIER_INPUT_HEIGHT : Nat) : FrameConfig :=
  { FRAME_BUFFER_COLS := 96
    FRAME_BUFFER_ROWS := 96
    CUTOUT_COLS := EI_CLASSIFIER_INPUT_WIDTH
    CUTOUT_ROWS := EI_CLASSIFIER_INPUT_HEIGHT }

/-- Source: `const int cutout_row_start = (FRAME_BUFFER_ROWS - CUTOUT_ROWS) / 2;` -/
def cutout_row_start (cfg : FrameConfig) : Int :=
  Int.tdiv ((cfg.FRAME_BUFFER_ROWS : Int) - (cfg.CUTOUT_ROWS : Int)) 2

/-- Source: `const int cutout_col_start = (FRAME_BUFFER_COLS - CUTOUT_COLS) / 2;` -/
def cutout_col_start (cfg : FrameConfig) : Int :=
  Int.tdiv ((cfg.FRAME_BUFFER_COLS : Int) - (cfg.CUTOUT_COLS : Int)) 2

/-! ## Colour conversion -/

/-- Source: `r565_to_rgb`. The three results are stored through `uint8_t`
pointers, hence the `% 256`. -/
def r565_to_rgb (color : Nat) : Nat × Nat × Nat :=
  (((color &&& 0xF800) >>> 8) % 256,
   ((color &&& 0x07E0) >>> 3) % 256,
   ((color &&& 0x1F) <<< 3) % 256)

/-- Source: `uint16_t pixel = (pixelTemp>>8) | (pixelTemp<<8);` in
`cutout_get_data`; the assignment to a `uint16_t` keeps the low 16 bits. -/
def swap_bytes (pixelTemp : Nat) : Nat :=
  ((pixelTemp >>> 8) ||| (pixelTemp <<< 8)) % 65536

/-- Source: `float pixel_f = (r << 16) + (g << 8) + b;` after
`r565_to_rgb(pixel, &r, &g, &b)` in `cutout_get_data`. -/
def pixel_f (pixel : Nat) : Nat :=
  match r565_to_rgb pixel with
  | (r, g, b) => (r <<< 16) + (g <<< 8) + b

/-! ## Sampling: `cutout_get_data` -/

/-- The four coordinates computed at the top of the loop body of
`cutout_get_data`. -/
structure CutoutAddress where
  cutout_row : Nat
  cutout_col : Nat
  frame_buffer_row : Int
  frame_buffer_col : Int

/-- Source: the address translation of `cutout_get_data`:
`cutout_row = floor(offset / CUTOUT_COLS)`,
`cutout_col = offset - (cutout_row * CUTOUT_COLS)`,
`frame_buffer_row = cutout_row + cutout_row_start`,
`frame_buffer_col = cutout_col + cutout_col_start`. -/
def translate (cfg : FrameConfig) (offset : Nat) : CutoutAddress :=
  let cutout_row := offset / cfg.CUTOUT_COLS
  let cutout_col := offset - (cutout_row * cfg.CUTOUT_COLS)
  { cutout_row := cutout_row
    cutout_col := cutout_col
    frame_buffer_row := (cutout_row : Int) + cutout_row_start cfg
    frame_buffer_col := (cutout_col : Int) + cutout_col_start cfg }

/-- Source: the subscript of `pixel_buffer` in `cutout_get_data`:
`(frame_buffer_row * FRAME_BUFFER_COLS) + frame_buffer_col`. -/
def frame_buffer_index (cfg : FrameConfig) (offset : Nat) : Int :=
  ((translate cfg offset).frame_buffer_row * (cfg.FRAME_BUFFER_COLS : Int))
    + (translate cfg offset).frame_buffer_col

/-- The variables that the `while` loop of `cutout_get_data` updates, apart from
`bytes_left`. -/
structure SampleState where
  offset : Nat
  out_ptr_ix : Nat
  out_ptr : Nat → Nat

/-- Source: one iteration of the `while (bytes_left != 0)` loop of
`cutout_get_data`. -/
def sample_step (cfg : FrameConfig) (pixel_buffer : Int → Nat) (s : SampleState) : SampleState :=
  let pixelTemp := pixel_buffer (frame_buffer_index cfg s.offset)
  let pixel := swap_bytes pixelTemp
  { offset := s.offset + 1
    out_ptr_ix := s.out_ptr_ix + 1
    out_ptr := Function.update s.out_ptr s.out_ptr_ix (pixel_f pixel) }

/-- Source: the `while (bytes_left != 0)` loop of `cutout_get_data`; the first
argument is `bytes_left`. -/
def sample_loop (cfg : FrameConfig) (pixel_buffer : Int → Nat) : Nat → SampleState → SampleState
  | 0, s => s
  | bytes_left + 1, s => sample_loop cfg pixel_buffer bytes_left (sample_step cfg pixel_buffer s)

/-- Source: `cutout_get_data(offset, length, out_ptr)`. The result is the
returned status and the contents of `out_ptr` afterwards. -/
def cutout_get_data (cfg : FrameConfig) (pixel_buffer : Int → Nat)
    (offset length : Nat) (out_ptr : Nat → Nat) : Int × (Nat → Nat) :=
  (0, (sample_loop cfg pixel_buffer length
        { offset := offset, out_ptr_ix := 0, out_ptr := out_ptr }).out_ptr)

/-! ## Decoding into the raster: `jpeg_store_data` -/

/-- One block yielded by `JpegDec.read()`: the fields `MCUx`, `MCUy` and the
pixels behind `pImage` (`pImage k` is the value of `pImage[k]`). -/
structure MCU where
  MCUx : Int
  MCUy : Int
  pImage : Nat → Nat

/-- The fields of the library object `JpegDec` that `jpeg_store_data` reads after
`JpegDec.decodeArray`, and the blocks that the successive calls of
`JpegDec.read()` yield before it returns false. The block dimensions are sizes,
so they are natural numbers. -/
structure JPEGDecoder where
  MCUWidth : Nat
  MCUHeight : Nat
  MCUSPerRow : Int
  MCUSPerCol : Int
  blocks : List MCU

/-- Source: `const int keep_x_mcus = width / JpegDec.MCUWidth;` -/
def keep_x_mcus (dec : JPEGDecoder) (width : Nat) : Int :=
  ((width / dec.MCUWidth : Nat) : Int)

/-- Source: `const int keep_y_mcus = height / JpegDec.MCUHeight;` -/
def keep_y_mcus (dec : JPEGDecoder) (height : Nat) : Int :=
  ((height / dec.MCUHeight : Nat) : Int)

/-- Source: `const int skip_x_mcus = JpegDec.MCUSPerRow - keep_x_mcus;` -/
def skip_x_mcus (dec : JPEGDecoder) (width : Nat) : Int :=
  dec.MCUSPerRow - keep_x_mcus dec width

/-- Source: `const int skip_start_x_mcus = skip_x_mcus / 2;` -/
def skip_start_x_mcus (dec : JPEGDecoder) (width : Nat) : Int :=
  Int.tdiv (skip_x_mcus dec width) 2

/-- Source: `const int skip_end_x_mcu_index = skip_start_x_mcus + keep_x_mcus;` -/
def skip_end_x_mcu_index (dec : JPEGDecoder) (width : Nat) : Int :=
  skip_start_x_mcus dec width + keep_x_mcus dec width

/-- Source: `const int skip_y_mcus = JpegDec.MCUSPerCol - keep_y_mcus;` -/
def skip_y_mcus (dec : JPEGDecoder) (height : Nat) : Int :=
  dec.MCUSPerCol - keep_y_mcus dec height

/-- Source: `const int skip_start_y_mcus = skip_y_mcus / 2;` -/
def skip_start_y_mcus (dec : JPEGDecoder) (height : Nat) : Int :=
  Int.tdiv (skip_y_mcus dec height) 2

/-- Source: `const int skip_end_y_mcu_index = skip_start_y_mcus + keep_y_mcus;` -/
def skip_end_y_mcu_index (dec : JPEGDecoder) (height : Nat) : Int :=
  skip_start_y_mcus dec height + keep_y_mcus dec height

/-- One executed store `out_buf[index] = color;` together with the values of
`current_x` and `current_y` at that moment. -/
structure PixelWrite where
  current_x : Int
  current_y : Int
  index : Int
  color : Nat

/-- The raster `out_buf` together with the record of the stores executed so far,
oldest first. The record is a ghost component: the code never reads it. -/
structure RasterState where
  out_buf : Int → Nat
  writes : List PixelWrite

/-- The state of the two nested `for` loops: the raster and the read pointer
`pImg`, as an offset from `JpegDec.pImage`. -/
structure BlockCursor where
  raster : RasterState
  pImg : Nat

/-- Source: the body of the inner loop `for (mcu_col ...)` of
`jpeg_store_data`:
`color = *pImg++; current_x = x_origin + mcu_col;`
`index = (current_y * width) + current_x; out_buf[index] = color;`. -/
def store_pixel (m : MCU) (width : Nat) (x_origin current_y : Int)
    (c : BlockCursor) (mcu_col : Nat) : BlockCursor :=
  let color := m.pImage c.pImg
  let current_x := x_origin + (mcu_col : Int)
  let index := (current_y * (width : Int)) + current_x
  { raster :=
      { out_buf := Function.update c.raster.out_buf index color
        writes := c.raster.writes ++ [{ current_x := current_x, current_y := current_y,
                                        index := index, color := color }] }
    pImg := c.pImg + 1 }

/-- Source: the body of the outer loop `for (mcu_row ...)` of `jpeg_store_data`:
`current_y = y_origin + mcu_row;` followed by the inner loop over
`mcu_col < JpegDec.MCUWidth`. -/
def store_row (dec : JPEGDecoder) (m : MCU) (width : Nat) (x_origin y_origin : Int)
    (c : BlockCursor) (mcu_row : Nat) : BlockCursor :=
  let current_y := y_origin + (mcu_row : Int)
  (List.range dec.MCUWidth).foldl (store_pixel m width x_origin current_y) c

/-- Source: the three `continue` guards of the `while (JpegDec.read())` loop, in
the order of the code: true when the block is skipped. -/
def skips (dec : JPEGDecoder) (width height : Nat) (m : MCU) : Bool :=
  if m.MCUy < skip_start_y_mcus dec height then true
  else if m.MCUx < skip_start_x_mcus dec width ∨ m.MCUx ≥ skip_end_x_mcu_index dec width then true
  else if m.MCUy ≥ skip_end_y_mcu_index dec height then true
  else false

/-- Source: the body of the `while (JpegDec.read())` loop of `jpeg_store_data`
for the block `m`. -/
def store_mcu (dec : JPEGDecoder) (width height : Nat) (s : RasterState) (m : MCU) :
    RasterState :=
  if skips dec width height m then s
  else
    let relative_mcu_x := m.MCUx - skip_start_x_mcus dec width
    let relative_mcu_y := m.MCUy - skip_start_y_mcus dec height
    let x_origin := relative_mcu_x * (dec.MCUWidth : Int)
    let y_origin := relative_mcu_y * (dec.MCUHeight : Int)
    ((List.range dec.MCUHeight).foldl (store_row dec m width x_origin y_origin)
      { raster := s, pImg := 0 }).raster

/-- Source: `jpeg_store_data(jpeg_buf, out_buf, width, height)`, after
`JpegDec.decodeArray` has produced `dec`: the loop body runs once for each block
that `JpegDec.read()` yields. The record of stores starts empty. -/
def jpeg_store_data (dec : JPEGDecoder) (out_buf : Int → Nat) (width height : Nat) :
    RasterState :=
  dec.blocks.foldl (store_mcu dec width height) { out_buf := out_buf, writes := [] }

/-! ## Transfer and the capture cycle of `loop` -/

/-- Source: the copy loop of `arducam_transfer`:
`for (index = 0; index < jpeg_length; index++) buf[index] = SPI.transfer(0x00);`
where the camera hands out the bytes of its FIFO in order. -/
def transfer_bytes (buf : Nat → Nat) : Nat → List Nat → Nat → Nat
  | _, [] => buf
  | index, b :: fifo => transfer_bytes (Function.update buf index b) (index + 1) fifo

/-- Source: `arducam_transfer(buf, buf_len)`. The camera is represented by the
bytes held in its FIFO: `myCAM.read_fifo_length()` is their number. The result
is the returned length and the contents of `buf` afterwards. -/
def arducam_transfer (fifo : List Nat) (buf : Nat → Nat) (buf_len : Nat) :
    Nat × (Nat → Nat) :=
  let jpeg_length := fifo.length
  if jpeg_length > buf_len then (0, buf)
  else (jpeg_length, transfer_bytes buf 0 fifo)

/-- The global buffers of the sketch after one capture cycle, with the value
that `arducam_transfer` returned. -/
structure CycleResult where
  jpeg_size : Nat
  jpeg_buffer : Nat → Nat
  pixel_buffer : Int → Nat
  writes : List PixelWrite

/-- Source: the capture part of `loop()`:
`jpeg_size = arducam_transfer(jpeg_buffer, 4096);`
`jpeg_store_data(jpeg_buffer, pixel_buffer, CUTOUT_COLS, CUTOUT_ROWS);`.
`decodeArray` stands for `JpegDec.decodeArray(jpeg_buffer, 4096)` followed by the
reads: the decoder state it leaves depends on the bytes of `jpeg_buffer`. -/
def capture_cycle (cfg : FrameConfig) (decodeArray : (Nat → Nat) → JPEGDecoder)
    (fifo : List Nat) (jpeg_buffer : Nat → Nat) (pixel_buffer : Int → Nat) : CycleResult :=
  let t := arducam_transfer fifo jpeg_buffer 4096
  let r := jpeg_store_data (decodeArray t.2) pixel_buffer cfg.CUTOUT_COLS cfg.CUTOUT_ROWS
  { jpeg_size := t.1, jpeg_buffer := t.2, pixel_buffer := r.out_buf, writes := r.writes }

/-- The two global buffers of the sketch between two executions of `loop()`. -/
structure Buffers where
  jpeg_buffer : Nat → Nat
  pixel_buffer : Int → Nat

/-- Source: successive executions of `loop()`: the global buffers after one
capture cycle for each of the given FIFO contents, in order. -/
def loop_cycles (cfg : FrameConfig) (decodeArray : (Nat → Nat) → JPEGDecoder)
    (payloads : List (List Nat)) (b : Buffers) : Buffers :=
  payloads.foldl
    (fun b fifo =>
      { jpeg_buffer :=
          (capture_cycle cfg decodeArray fifo b.jpeg_buffer b.pixel_buffer).jpeg_buffer
        pixel_buffer :=
          (capture_cycle cfg decodeArray fifo b.jpeg_buffer b.pixel_buffer).pixel_buffer })
    b

/-! ## Definitions used to state the properties -/

/-- The raster obtained from `buf` by executing the recorded stores in order. -/
def replay (buf : Int → Nat) (ws : List PixelWrite) : Int → Nat :=
  ws.foldl (fun b w => Function.update b w.index w.color) buf

/-- The stores of one block row, written out in closed form: column `mcu_col`
of row `mcu_row` receives the pixel number `mcu_row * MCUWidth + mcu_col`. -/
def row_writes (dec : JPEGDecoder) (m : MCU) (width : Nat) (x_origin y_origin : Int)
    (mcu_row : Nat) : List PixelWrite :=
  (List.range dec.MCUWidth).map fun (mcu_col : Nat) =>
    { current_x := x_origin + (mcu_col : Int)
      current_y := y_origin + (mcu_row : Int)
      index := ((y_origin + (mcu_row : Int)) * (width : Int)) + (x_origin + (mcu_col : Int))
      color := m.pImage (mcu_row * dec.MCUWidth + mcu_col) }

/-- The x coordinate of the top left pixel of a kept block in the output. -/
def x_origin (dec : JPEGDecoder) (width : Nat) (m : MCU) : Int :=
  (m.MCUx - skip_start_x_mcus dec width) * (dec.MCUWidth : Int)

/-- The y coordinate of the top left pixel of a kept block in the output. -/
def y_origin (dec : JPEGDecoder) (height : Nat) (m : MCU) : Int :=
  (m.MCUy - skip_start_y_mcus dec height) * (dec.MCUHeight : Int)

/-- The stores of one block in closed form: none when the block is skipped. -/
def block_writes (dec : JPEGDecoder) (width height : Nat) (m : MCU) : List PixelWrite :=
  if skips dec width height m then []
  else (List.range dec.MCUHeight).flatMap
    (row_writes dec m width (x_origin dec width m) (y_origin dec height m))

/-- Spec: number of blocks to keep per axis, `floor(target / block_dimension)`. -/
def spec_keep (target block_dimension : Nat) : Int :=
  ((target / block_dimension : Nat) : Int)

/-- Spec: blocks to discard per axis, `blocks_total - keep`. -/
def spec_discard (blocks_total keep : Int) : Int :=
  blocks_total - keep

/-- Spec: skip-start offset per axis, `floor(discard / 2)` (`/` on `Int` with a
positive divisor rounds down). -/
def spec_skip_start (blocks_total keep : Int) : Int :=
  spec_discard blocks_total keep / 2

/-- Spec: skip-end index per axis, `skip_start + keep`. -/
def spec_skip_end (blocks_total keep : Int) : Int :=
  spec_skip_start blocks_total keep + keep

/-- Spec: the keep window of section 4.1 for the block at `(bx, by)`. -/
def spec_kept (dec : JPEGDecoder) (width height : Nat) (bx b_y : Int) : Prop :=
  spec_skip_start dec.MCUSPerRow (spec_keep width dec.MCUWidth) ≤ bx
  ∧ bx < spec_skip_end dec.MCUSPerRow (spec_keep width dec.MCUWidth)
  ∧ spec_skip_start dec.MCUSPerCol (spec_keep height dec.MCUHeight) ≤ b_y
  ∧ b_y < spec_skip_end dec.MCUSPerCol (spec_keep height dec.MCUHeight)

/-- A decoder state for examples: 16 x 8 blocks, `nx` block columns and `ny`
block rows, every block yielded once in row-major order; pixel `k` of the block
at `(x, y)` has the 16-bit value `(1000 * (y * nx + x) + k + 1) % 65536`. -/
def frameDecoder (nx ny : Nat) : JPEGDecoder :=
  { MCUWidth := 16
    MCUHeight := 8
    MCUSPerRow := (nx : Int)
    MCUSPerCol := (ny : Int)
    blocks := (List.range ny).flatMap fun (y : Nat) => (List.range nx).map fun (x : Nat) =>
      { MCUx := (x : Int), MCUy := (y : Int), pImage := fun k => (1000 * (y * nx + x) + k + 1) % 65536 } }

/-- The block at grid position `(x, y)` of `frameDecoder nx ny`. -/
def frameBlock (nx x y : Nat) : MCU :=
  { MCUx := (x : Int), MCUy := (y : Int), pImage := fun k => (1000 * (y * nx + x) + k + 1) % 65536 }

/-- A raster whose cells all hold zero. -/
def blankRaster : Int → Nat := fun _ => 0

/-- An empty raster state over `blankRaster`. -/
def blankState : RasterState := { out_buf := blankRaster, writes := [] }

/-- The grid coordinate of a block. -/
def coord (m : MCU) : Int × Int := (m.MCUx, m.MCUy)

/-- The output position of a store. -/
def position (w : PixelWrite) : Int × Int := (w.current_x, w.current_y)

/-- The blocks of a pass that the three guards of `jpeg_store_data` let
through, in the order in which the decoder yields them. -/
def kept_blocks (dec : JPEGDecoder) (width height : Nat) : List MCU :=
  dec.blocks.filter fun m => !skips dec width height m

/-- The contents of the transfer buffer at power-on, for examples: all zero. -/
def bootJpeg : Nat → Nat := fun _ => 0

/-- A decoder for examples: a buffer whose first two bytes are the JPEG marker
`FF D8` decodes to the 6 x 12 grid of `frameDecoder`, any other buffer yields no
block. -/
def markerDecode : (Nat → Nat) → JPEGDecoder := fun buf =>
  if buf 0 = 0xFF ∧ buf 1 = 0xD8 then frameDecoder 6 12
  else { MCUWidth := 16, MCUHeight := 8, MCUSPerRow := 0, MCUSPerCol := 0, blocks := [] }

/-- A payload for examples that fits the transfer buffer: 100 bytes starting
with the JPEG marker. -/
def smallPayload : List Nat := 0xFF :: 0xD8 :: List.replicate 98 0

/-- A payload for examples that exceeds the transfer buffer: 5000 bytes. -/
def oversizePayload : List Nat := List.replicate 5000 0xFF

/-- A raster for examples: the cell of index 2328 holds `0x00F8`, every other
cell holds zero. -/
def oneRedCell : Int → Nat := fun i => if i = 2328 then 0x00F8 else 0

/-! ## Integer division and bit lemmas -/

theorem tdiv_two_cases (a : Int) :
    (0 ≤ a ∧ Int.tdiv a 2 = a / 2) ∨ (a < 0 ∧ Int.tdiv a 2 = -((-a) / 2)) := by
  rcases le_or_lt 0 a with h | h
  · exact Or.inl ⟨h, Int.tdiv_eq_ediv h (by decide)⟩
  · refine Or.inr ⟨h, ?_⟩
    have h1 : Int.tdiv (-a) 2 = (-a) / 2 := Int.tdiv_eq_ediv (by omega) (by decide)
    have h2 : Int.tdiv (-(-a)) 2 = -(Int.tdiv (-a) 2) := Int.neg_tdiv (-a) 2
    rw [neg_neg] at h2
    rw [h2, h1]

theorem shiftRight_and_distrib (a b n : Nat) :
    (a &&& b) >>> n = (a >>> n) &&& (b >>> n) := by
  apply Nat.eq_of_testBit_eq
  intro i
  simp [Nat.testBit_shiftRight, Nat.testBit_and]

set_option maxRecDepth 100000 in
theorem and_F8_byte : ∀ a < 256, a &&& 0xF8 = a / 8 * 8 := by
  decide

set_option maxRecDepth 100000 in
theorem and_FC_byte : ∀ a < 256, a &&& 0xFC = a / 4 * 4 := by
  decide

theorem and_mask_byte (a m : Nat) (hm : m < 256) : a &&& m = (a % 256) &&& m := by
  have h : m &&& 255 = m := by
    have := Nat.and_pow_two_sub_one_eq_mod m 8
    simp at this
    rw [this]; exact Nat.mod_eq_of_lt hm
  have h2 := Nat.and_pow_two_sub_one_eq_mod a 8
  simp at h2
  rw [← h2, Nat.and_assoc, Nat.and_comm 255 m, h]

theorem red_channel (v : Nat) : (v &&& 0xF800) >>> 8 = (v / 2048 % 32) * 8 := by
  rw [shiftRight_and_distrib]
  show (v >>> 8) &&& 0xF8 = _
  rw [and_mask_byte _ _ (by decide), and_F8_byte _ (Nat.mod_lt _ (by decide)),
    Nat.shiftRight_eq_div_pow]
  omega

theorem green_channel (v : Nat) : (v &&& 0x07E0) >>> 3 = (v / 32 % 64) * 4 := by
  rw [shiftRight_and_distrib]
  show (v >>> 3) &&& 0xFC = _
  rw [and_mask_byte _ _ (by decide), and_FC_byte _ (Nat.mod_lt _ (by decide)),
    Nat.shiftRight_eq_div_pow]
  omega

theorem blue_channel (v : Nat) : (v &&& 0x1F) <<< 3 = (v % 32) * 8 := by
  have h2 := Nat.and_pow_two_sub_one_eq_mod v 5
  simp at h2
  rw [h2, Nat.shiftLeft_eq]

theorem r565_to_rgb_eq (v : Nat) :
    r565_to_rgb v = ((v / 2048 % 32) * 8, (v / 32 % 64) * 4, (v % 32) * 8) := by
  unfold r565_to_rgb
  rw [red_channel, green_channel, blue_channel]
  have h1 : (v / 2048 % 32) * 8 % 256 = (v / 2048 % 32) * 8 := by omega
  have h2 : (v / 32 % 64) * 4 % 256 = (v / 32 % 64) * 4 := by omega
  have h3 : (v % 32) * 8 % 256 = (v % 32) * 8 := by omega
  rw [h1, h2, h3]

theorem pixel_f_eq (v : Nat) :
    pixel_f v = (v / 2048 % 32) * 8 * 65536 + (v / 32 % 64) * 4 * 256 + (v % 32) * 8 := by
  unfold pixel_f
  rw [r565_to_rgb_eq]
  simp only [Nat.shiftLeft_eq]

theorem pixel_f_lt (v : Nat) : pixel_f v < 2 ^ 24 := by
  rw [pixel_f_eq]
  omega

/-! ## Colour conversion (claim C6) -/

/-- C6: for every value `v` (in particular every 16-bit one), `r565_to_rgb v`
returns as red the bits 15-11 of `v` in the top five bits of the byte, as green
the bits 10-5 of `v` in the top six bits of the byte (so green depends on no
other bit), and as blue the bits 4-0 of `v` shifted left by three; the values
computed before the store into the `uint8_t` results are below 256, so the store
truncates nothing; and the four boundary values convert as listed. -/
theorem r565_to_rgb_layout (v : Nat) :
    r565_to_rgb v = ((v / 2 ^ 11 % 2 ^ 5) * 2 ^ 3, (v / 2 ^ 5 % 2 ^ 6) * 2 ^ 2, (v % 2 ^ 5) <<< 3)
    ∧ (v &&& 0xF800) >>> 8 < 256 ∧ (v &&& 0x07E0) >>> 3 < 256 ∧ (v &&& 0x1F) <<< 3 < 256
    ∧ r565_to_rgb 0xF800 = (0xF8, 0, 0)
    ∧ r565_to_rgb 0x07E0 = (0, 0xFC, 0)
    ∧ r565_to_rgb 0x001F = (0, 0, 0xF8)
    ∧ r565_to_rgb 0xFFFF = (0xF8, 0xFC, 0xF8) := by
  refine ⟨?_, ?_, ?_, ?_, by decide, by decide, by decide, by decide⟩
  · rw [r565_to_rgb_eq, Nat.shiftLeft_eq]; norm_num
  · rw [red_channel]; omega
  · rw [green_channel]; omega
  · rw [blue_channel]; omega

/-! ## Address translation (claims C3 and C4) -/

theorem translate_cutout_row (cfg : FrameConfig) (offset : Nat) :
    (translate cfg offset).cutout_row = offset / cfg.CUTOUT_COLS := rfl

theorem translate_cutout_col (cfg : FrameConfig) (offset : Nat) :
    (translate cfg offset).cutout_col = offset % cfg.CUTOUT_COLS := by
  show offset - offset / cfg.CUTOUT_COLS * cfg.CUTOUT_COLS = offset % cfg.CUTOUT_COLS
  have h := Nat.div_add_mod offset cfg.CUTOUT_COLS
  rw [Nat.mul_comm] at h
  omega

theorem cutout_row_lt (cfg : FrameConfig) (offset : Nat)
    (ho : offset < cfg.CUTOUT_COLS * cfg.CUTOUT_ROWS) :
    (translate cfg offset).cutout_row < cfg.CUTOUT_ROWS := by
  rw [translate_cutout_row]
  exact Nat.div_lt_of_lt_mul ho

theorem start_of_fits (full cut : Nat) (h : cut ≤ full) :
    Int.tdiv ((full : Int) - (cut : Int)) 2 = (((full - cut) / 2 : Nat) : Int) := by
  have h0 : (0 : Int) ≤ (full : Int) - (cut : Int) := by omega
  rw [Int.tdiv_eq_ediv h0 (by decide)]
  omega

/-- C3: for a positive cutout width and an offset inside the virtual cutout,
the translation of `cutout_get_data` gives `cutout_row = offset / CUTOUT_COLS`,
`cutout_col = offset - cutout_row * CUTOUT_COLS` (without underflow) with
`cutout_col < CUTOUT_COLS`, adds the two start offsets to obtain the raster row
and column, and re-linearizing the raster coordinates relative to the start
offsets recovers `offset`. -/
theorem translate_round_trip (cfg : FrameConfig) (offset : Nat)
    (hw : 0 < cfg.CUTOUT_COLS) (ho : offset < cfg.CUTOUT_COLS * cfg.CUTOUT_ROWS) :
    (translate cfg offset).cutout_row = offset / cfg.CUTOUT_COLS
    ∧ ((translate cfg offset).cutout_col : Int)
        = (offset : Int) - ((translate cfg offset).cutout_row : Int) * (cfg.CUTOUT_COLS : Int)
    ∧ (translate cfg offset).cutout_col < cfg.CUTOUT_COLS
    ∧ (translate cfg offset).cutout_row < cfg.CUTOUT_ROWS
    ∧ (translate cfg offset).frame_buffer_row
        = ((translate cfg offset).cutout_row : Int) + cutout_row_start cfg
    ∧ (translate cfg offset).frame_buffer_col
        = ((translate cfg offset).cutout_col : Int) + cutout_col_start cfg
    ∧ ((translate cfg offset).frame_buffer_row - cutout_row_start cfg) * (cfg.CUTOUT_COLS : Int)
        + ((translate cfg offset).frame_buffer_col - cutout_col_start cfg) = (offset : Int) := by
  have hc := translate_cutout_col cfg offset
  have hr := translate_cutout_row cfg offset
  have hdm := Nat.div_add_mod offset cfg.CUTOUT_COLS
  have hdmZ : (cfg.CUTOUT_COLS : Int) * ((offset / cfg.CUTOUT_COLS : Nat) : Int)
      + ((offset % cfg.CUTOUT_COLS : Nat) : Int) = (offset : Int) := by exact_mod_cast hdm
  refine ⟨hr, ?_, ?_, cutout_row_lt cfg offset ho, rfl, rfl, ?_⟩
  · rw [hc, hr]; linarith [mul_comm (cfg.CUTOUT_COLS : Int) ((offset / cfg.CUTOUT_COLS : Nat) : Int)]
  · rw [hc]; exact Nat.mod_lt _ hw
  · show (((translate cfg offset).cutout_row : Int) + cutout_row_start cfg - cutout_row_start cfg)
        * (cfg.CUTOUT_COLS : Int)
      + (((translate cfg offset).cutout_col : Int) + cutout_col_start cfg - cutout_col_start cfg)
      = (offset : Int)
    rw [hc, hr]
    linarith [mul_comm (cfg.CUTOUT_COLS : Int) ((offset / cfg.CUTOUT_COLS : Nat) : Int)]

/-- The round trip at offset 100 of a 48 x 48 cutout of the 96 x 96 frame: cutout
position (2, 4), raster position (26, 28). -/
theorem translate_round_trip_witness :
    (0 < (sketchConfig 48 48).CUTOUT_COLS
      ∧ 100 < (sketchConfig 48 48).CUTOUT_COLS * (sketchConfig 48 48).CUTOUT_ROWS)
    ∧ (translate (sketchConfig 48 48) 100).cutout_row = 2
    ∧ (translate (sketchConfig 48 48) 100).cutout_col = 4
    ∧ (translate (sketchConfig 48 48) 100).frame_buffer_row = 26
    ∧ (translate (sketchConfig 48 48) 100).frame_buffer_col = 28
    ∧ ((translate (sketchConfig 48 48) 100).frame_buffer_row - cutout_row_start (sketchConfig 48 48))
          * ((sketchConfig 48 48).CUTOUT_COLS : Int)
        + ((translate (sketchConfig 48 48) 100).frame_buffer_col
            - cutout_col_start (sketchConfig 48 48)) = ((100 : Nat) : Int) :=
  ⟨⟨by decide, by decide⟩, by decide, by decide, by decide, by decide,
    (translate_round_trip (sketchConfig 48 48) 100 (by decide) (by decide)).2.2.2.2.2.2⟩

/-- C4: when the cutout is non-empty and not larger than the frame, the start
offsets are the halved differences, and for every offset inside the virtual
cutout the raster row, the raster column and the subscript that
`cutout_get_data` applies to `pixel_buffer` are inside the frame buffer of
`FRAME_BUFFER_COLS * FRAME_BUFFER_ROWS` cells. -/
theorem frame_buffer_index_in_bounds (cfg : FrameConfig) (offset : Nat)
    (hw : 0 < cfg.CUTOUT_COLS) (_hh : 0 < cfg.CUTOUT_ROWS)
    (hcw : cfg.CUTOUT_COLS ≤ cfg.FRAME_BUFFER_COLS)
    (hch : cfg.CUTOUT_ROWS ≤ cfg.FRAME_BUFFER_ROWS)
    (ho : offset < cfg.CUTOUT_COLS * cfg.CUTOUT_ROWS) :
    cutout_row_start cfg = (((cfg.FRAME_BUFFER_ROWS - cfg.CUTOUT_ROWS) / 2 : Nat) : Int)
    ∧ cutout_col_start cfg = (((cfg.FRAME_BUFFER_COLS - cfg.CUTOUT_COLS) / 2 : Nat) : Int)
    ∧ 0 ≤ (translate cfg offset).frame_buffer_row
    ∧ (translate cfg offset).frame_buffer_row < (cfg.FRAME_BUFFER_ROWS : Int)
    ∧ 0 ≤ (translate cfg offset).frame_buffer_col
    ∧ (translate cfg offset).frame_buffer_col < (cfg.FRAME_BUFFER_COLS : Int)
    ∧ 0 ≤ frame_buffer_index cfg offset
    ∧ frame_buffer_index cfg offset
        < (cfg.FRAME_BUFFER_COLS : Int) * (cfg.FRAME_BUFFER_ROWS : Int) := by
  have hrs : cutout_row_start cfg = (((cfg.FRAME_BUFFER_ROWS - cfg.CUTOUT_ROWS) / 2 : Nat) : Int) :=
    start_of_fits _ _ hch
  have hcs : cutout_col_start cfg = (((cfg.FRAME_BUFFER_COLS - cfg.CUTOUT_COLS) / 2 : Nat) : Int) :=
    start_of_fits _ _ hcw
  have hr := cutout_row_lt cfg offset ho
  have hc : (translate cfg offset).cutout_col < cfg.CUTOUT_COLS := by
    rw [translate_cutout_col]; exact Nat.mod_lt _ hw
  have hrow : (translate cfg offset).frame_buffer_row
      = ((translate cfg offset).cutout_row : Int) + cutout_row_start cfg := rfl
  have hcol : (translate cfg offset).frame_buffer_col
      = ((translate cfg offset).cutout_col : Int) + cutout_col_start cfg := rfl
  have r0 : 0 ≤ (translate cfg offset).frame_buffer_row := by rw [hrow, hrs]; omega
  have r1 : (translate cfg offset).frame_buffer_row < (cfg.FRAME_BUFFER_ROWS : Int) := by
    rw [hrow, hrs]; omega
  have c0 : 0 ≤ (translate cfg offset).frame_buffer_col := by rw [hcol, hcs]; omega
  have c1 : (translate cfg offset).frame_buffer_col < (cfg.FRAME_BUFFER_COLS : Int) := by
    rw [hcol, hcs]; omega
  refine ⟨hrs, hcs, r0, r1, c0, c1, ?_, ?_⟩
  · unfold frame_buffer_index
    have : 0 ≤ (translate cfg offset).frame_buffer_row * (cfg.FRAME_BUFFER_COLS : Int) :=
      mul_nonneg r0 (by omega)
    omega
  · unfold frame_buffer_index
    have h1 : (translate cfg offset).frame_buffer_row + 1 ≤ (cfg.FRAME_BUFFER_ROWS : Int) := by
      omega
    have h2 : ((translate cfg offset).frame_buffer_row + 1) * (cfg.FRAME_BUFFER_COLS : Int)
        ≤ (cfg.FRAME_BUFFER_ROWS : Int) * (cfg.FRAME_BUFFER_COLS : Int) :=
      mul_le_mul_of_nonneg_right h1 (by omega)
    nlinarith

/-- The last offset of a 48 x 48 cutout of the 96 x 96 frame is read at index
6887, below 9216. -/
theorem frame_buffer_index_in_bounds_witness :
    (0 < (sketchConfig 48 48).CUTOUT_COLS ∧ 0 < (sketchConfig 48 48).CUTOUT_ROWS
      ∧ (sketchConfig 48 48).CUTOUT_COLS ≤ (sketchConfig 48 48).FRAME_BUFFER_COLS
      ∧ (sketchConfig 48 48).CUTOUT_ROWS ≤ (sketchConfig 48 48).FRAME_BUFFER_ROWS
      ∧ 2303 < (sketchConfig 48 48).CUTOUT_COLS * (sketchConfig 48 48).CUTOUT_ROWS)
    ∧ frame_buffer_index (sketchConfig 48 48) 2303 = 6887
    ∧ frame_buffer_index (sketchConfig 48 48) 2303
        < ((sketchConfig 48 48).FRAME_BUFFER_COLS : Int) * ((sketchConfig 48 48).FRAME_BUFFER_ROWS : Int) :=
  ⟨⟨by decide, by decide, by decide, by decide, by decide⟩, by decide,
    (frame_buffer_index_in_bounds (sketchConfig 48 48) 2303 (by decide) (by decide) (by decide)
      (by decide) (by decide)).2.2.2.2.2.2.2⟩

/-! ## Sampling (claim C5) -/

theorem sample_loop_spec (cfg : FrameConfig) (pixel_buffer : Int → Nat) (n : Nat) :
    ∀ s : SampleState,
      (∀ i, i < n → (sample_loop cfg pixel_buffer n s).out_ptr (s.out_ptr_ix + i)
          = pixel_f (swap_bytes (pixel_buffer (frame_buffer_index cfg (s.offset + i)))))
      ∧ (∀ j, (j < s.out_ptr_ix ∨ s.out_ptr_ix + n ≤ j) →
          (sample_loop cfg pixel_buffer n s).out_ptr j = s.out_ptr j) := by
  induction n with
  | zero =>
    intro s
    exact ⟨fun i hi => absurd hi (Nat.not_lt_zero i), fun j _ => rfl⟩
  | succ n ih =>
    intro s
    obtain ⟨ih1, ih2⟩ := ih (sample_step cfg pixel_buffer s)
    have hix : (sample_step cfg pixel_buffer s).out_ptr_ix = s.out_ptr_ix + 1 := rfl
    have hoff : (sample_step cfg pixel_buffer s).offset = s.offset + 1 := rfl
    have hout : (sample_step cfg pixel_buffer s).out_ptr
        = Function.update s.out_ptr s.out_ptr_ix
            (pixel_f (swap_bytes (pixel_buffer (frame_buffer_index cfg s.offset)))) := rfl
    constructor
    · intro i hi
      show (sample_loop cfg pixel_buffer n (sample_step cfg pixel_buffer s)).out_ptr
          (s.out_ptr_ix + i) = _
      rcases Nat.eq_zero_or_pos i with h0 | hpos
      · subst h0
        rw [ih2 _ (Or.inl (by rw [hix]; omega)), hout]
        simp
      · have h := ih1 (i - 1) (by omega)
        rw [hix, hoff] at h
        have e1 : s.out_ptr_ix + 1 + (i - 1) = s.out_ptr_ix + i := by omega
        have e2 : s.offset + 1 + (i - 1) = s.offset + i := by omega
        rw [e1, e2] at h
        exact h
    · intro j hj
      show (sample_loop cfg pixel_buffer n (sample_step cfg pixel_buffer s)).out_ptr j = _
      rw [ih2 j (by rw [hix]; omega), hout]
      exact Function.update_noteq (by omega) _ _

theorem cutout_get_data_sample (cfg : FrameConfig) (pixel_buffer : Int → Nat)
    (start count : Nat) (out : Nat → Nat) (i : Nat) (hi : i < count) :
    (cutout_get_data cfg pixel_buffer start count out).2 i
      = pixel_f (swap_bytes (pixel_buffer (frame_buffer_index cfg (start + i)))) := by
  have h := (sample_loop_spec cfg pixel_buffer count
    { offset := start, out_ptr_ix := 0, out_ptr := out }).1 i hi
  simp only [Nat.zero_add] at h
  exact h

/-- C5: `cutout_get_data cfg pixel_buffer start count out` returns 0; for
every `i < count` the cell `out[i]` afterwards is `(r8 << 16) + (g8 << 8) + b8`
for the channels that `r565_to_rgb` returns on the byte-swapped raster cell read
at the translated address of the offset `start + i`; cells at index `count` or
above are unchanged, so that `count = 0` changes nothing; and every stored value
is below `2 ^ 24`, the range in which a float holds an integer exactly. -/
theorem cutout_get_data_fills (cfg : FrameConfig) (pixel_buffer : Int → Nat)
    (start count : Nat) (out : Nat → Nat) :
    (cutout_get_data cfg pixel_buffer start count out).1 = 0
    ∧ (∀ i, i < count →
        (cutout_get_data cfg pixel_buffer start count out).2 i
          = ((r565_to_rgb (((pixel_buffer (frame_buffer_index cfg (start + i)) >>> 8)
                ||| (pixel_buffer (frame_buffer_index cfg (start + i)) <<< 8)) % 2 ^ 16)).1 <<< 16)
            + ((r565_to_rgb (((pixel_buffer (frame_buffer_index cfg (start + i)) >>> 8)
                ||| (pixel_buffer (frame_buffer_index cfg (start + i)) <<< 8)) % 2 ^ 16)).2.1 <<< 8)
            + (r565_to_rgb (((pixel_buffer (frame_buffer_index cfg (start + i)) >>> 8)
                ||| (pixel_buffer (frame_buffer_index cfg (start + i)) <<< 8)) % 2 ^ 16)).2.2)
    ∧ (∀ i, count ≤ i → (cutout_get_data cfg pixel_buffer start count out).2 i = out i)
    ∧ (count = 0 → (cutout_get_data cfg pixel_buffer start count out).2 = out)
    ∧ (∀ i, i < count → (cutout_get_data cfg pixel_buffer start count out).2 i < 2 ^ 24) := by
  obtain ⟨_, h2⟩ := sample_loop_spec cfg pixel_buffer count
    { offset := start, out_ptr_ix := 0, out_ptr := out }
  have key := cutout_get_data_sample cfg pixel_buffer start count out
  refine ⟨rfl, ?_, ?_, ?_, ?_⟩
  · intro i hi
    rw [key i hi]
    rfl
  · intro i hi
    exact h2 i (Or.inr (by simpa using hi))
  · intro h0
    subst h0
    rfl
  · intro i hi
    rw [key i hi]
    exact pixel_f_lt _

/-! ## The record of stores of `jpeg_store_data` in closed form -/

theorem replay_append (buf : Int → Nat) (ws vs : List PixelWrite) :
    replay buf (ws ++ vs) = replay (replay buf ws) vs := by
  unfold replay
  rw [List.foldl_append]

theorem replay_of_not_mem (ws : List PixelWrite) (i : Int) :
    ∀ buf : Int → Nat, (∀ w ∈ ws, w.index ≠ i) → replay buf ws i = buf i := by
  induction ws with
  | nil => intro buf _; rfl
  | cons w ws ih =>
    intro buf h
    show replay (Function.update buf w.index w.color) ws i = buf i
    rw [ih _ (fun v hv => h v (List.mem_cons_of_mem _ hv))]
    exact Function.update_noteq (fun e => h w (List.mem_cons_self _ _) e.symm) _ _

theorem replay_of_mem (ws : List PixelWrite) :
    ∀ buf : Int → Nat,
      (∀ w1 ∈ ws, ∀ w2 ∈ ws, w1.index = w2.index → w1.color = w2.color) →
      ∀ w ∈ ws, replay buf ws w.index = w.color := by
  induction ws with
  | nil => intro buf _ w hw; exact absurd hw (List.not_mem_nil w)
  | cons v ws ih =>
    intro buf hfun w hw
    show replay (Function.update buf v.index v.color) ws w.index = w.color
    by_cases hin : ∃ u ∈ ws, u.index = w.index
    · obtain ⟨u, hu, hue⟩ := hin
      have hih := ih (Function.update buf v.index v.color)
        (fun a ha b hb => hfun a (List.mem_cons_of_mem _ ha) b (List.mem_cons_of_mem _ hb)) u hu
      rw [← hue, hih]
      exact hfun u (List.mem_cons_of_mem _ hu) w hw hue
    · have hnot : ∀ u ∈ ws, u.index ≠ w.index := fun u hu e => hin ⟨u, hu, e⟩
      rw [replay_of_not_mem ws w.index _ hnot]
      rcases List.mem_cons.1 hw with rfl | hw2
      · simp
      · exact absurd ⟨w, hw2, rfl⟩ hin

theorem store_row_fold (m : MCU) (width : Nat) (x0 cy : Int) (c : BlockCursor) (n : Nat) :
    (List.range n).foldl (store_pixel m width x0 cy) c
      = { raster :=
            { out_buf := replay c.raster.out_buf ((List.range n).map fun (mcu_col : Nat) =>
                ({ current_x := x0 + (mcu_col : Int), current_y := cy,
                   index := (cy * (width : Int)) + (x0 + (mcu_col : Int)),
                   color := m.pImage (c.pImg + mcu_col) } : PixelWrite))
              writes := c.raster.writes ++ ((List.range n).map fun (mcu_col : Nat) =>
                ({ current_x := x0 + (mcu_col : Int), current_y := cy,
                   index := (cy * (width : Int)) + (x0 + (mcu_col : Int)),
                   color := m.pImage (c.pImg + mcu_col) } : PixelWrite)) }
          pImg := c.pImg + n } := by
  induction n with
  | zero => simp [replay]
  | succ n ih =>
    rw [List.range_succ, List.foldl_append, ih, List.map_append, replay_append,
      ← List.append_assoc]
    rfl

theorem store_mcu_fold (dec : JPEGDecoder) (m : MCU) (width : Nat) (x0 y0 : Int)
    (s : RasterState) (n : Nat) :
    (List.range n).foldl (store_row dec m width x0 y0) { raster := s, pImg := 0 }
      = { raster :=
            { out_buf := replay s.out_buf ((List.range n).flatMap (row_writes dec m width x0 y0))
              writes := s.writes ++ (List.range n).flatMap (row_writes dec m width x0 y0) }
          pImg := n * dec.MCUWidth } := by
  induction n with
  | zero => simp [replay]
  | succ n ih =>
    rw [List.range_succ, List.foldl_append, ih]
    simp only [List.foldl_cons, List.foldl_nil, store_row, store_row_fold, List.flatMap_append,
      List.flatMap_cons, List.flatMap_nil, List.append_nil, replay_append, List.append_assoc]
    have e : (n + 1) * dec.MCUWidth = n * dec.MCUWidth + dec.MCUWidth := by ring
    rw [e]
    rfl

theorem store_mcu_eq (dec : JPEGDecoder) (width height : Nat) (s : RasterState) (m : MCU) :
    store_mcu dec width height s m
      = { out_buf := replay s.out_buf (block_writes dec width height m)
          writes := s.writes ++ block_writes dec width height m } := by
  unfold store_mcu block_writes
  by_cases h : skips dec width height m = true
  · simp [h, replay]
  · simp only [h, if_false, Bool.false_eq_true]
    rw [store_mcu_fold]
    rfl

theorem blocks_fold (dec : JPEGDecoder) (width height : Nat) (l : List MCU) :
    ∀ s : RasterState, l.foldl (store_mcu dec width height) s
      = { out_buf := replay s.out_buf (l.flatMap (block_writes dec width height))
          writes := s.writes ++ l.flatMap (block_writes dec width height) } := by
  induction l with
  | nil => intro s; simp [replay]
  | cons m l ih =>
    intro s
    rw [List.foldl_cons, ih, store_mcu_eq]
    simp [replay_append]

theorem jpeg_store_data_eq (dec : JPEGDecoder) (out_buf : Int → Nat) (width height : Nat) :
    jpeg_store_data dec out_buf width height
      = { out_buf := replay out_buf (dec.blocks.flatMap (block_writes dec width height))
          writes := dec.blocks.flatMap (block_writes dec width height) } := by
  unfold jpeg_store_data
  rw [blocks_fold]
  rfl

/-! ## The keep window and the placement of a block -/

theorem skips_eq_false_iff (dec : JPEGDecoder) (width height : Nat) (m : MCU) :
    skips dec width height m = false ↔
      (skip_start_x_mcus dec width ≤ m.MCUx ∧ m.MCUx < skip_end_x_mcu_index dec width
        ∧ skip_start_y_mcus dec height ≤ m.MCUy ∧ m.MCUy < skip_end_y_mcu_index dec height) := by
  unfold skips
  by_cases h1 : m.MCUy < skip_start_y_mcus dec height
  · simp only [h1, if_true]
    constructor
    · intro h; exact absurd h (by decide)
    · intro h; omega
  · by_cases h2 : m.MCUx < skip_start_x_mcus dec width ∨ m.MCUx ≥ skip_end_x_mcu_index dec width
    · simp only [h1, h2, if_true, if_false]
      constructor
      · intro h; exact absurd h (by decide)
      · intro h; omega
    · by_cases h3 : m.MCUy ≥ skip_end_y_mcu_index dec height
      · simp only [h1, h2, h3, if_true, if_false]
        constructor
        · intro h; exact absurd h (by decide)
        · intro h; omega
      · simp only [h1, h2, h3, if_false]
        constructor
        · intro _; omega
        · intro _; trivial

theorem mem_block_writes (dec : JPEGDecoder) (width height : Nat) (m : MCU) (w : PixelWrite) :
    w ∈ block_writes dec width height m ↔
      skips dec width height m = false ∧ ∃ r, r < dec.MCUHeight ∧ ∃ c, c < dec.MCUWidth ∧
        w = { current_x := x_origin dec width m + (c : Int)
              current_y := y_origin dec height m + (r : Int)
              index := ((y_origin dec height m + (r : Int)) * (width : Int))
                + (x_origin dec width m + (c : Int))
              color := m.pImage (r * dec.MCUWidth + c) } := by
  unfold block_writes
  by_cases h : skips dec width height m = true
  · simp [h]
  · have hf : skips dec width height m = false := by simpa using h
    simp only [hf, Bool.false_eq_true, if_false, List.mem_flatMap, List.mem_range, row_writes,
      List.mem_map, true_and]
    constructor
    · rintro ⟨r, hr, c, hc, rfl⟩
      exact ⟨r, hr, c, hc, rfl⟩
    · rintro ⟨r, hr, c, hc, rfl⟩
      exact ⟨r, hr, c, hc, rfl⟩

theorem length_block_writes (dec : JPEGDecoder) (width height : Nat) (m : MCU)
    (h : skips dec width height m = false) :
    (block_writes dec width height m).length = dec.MCUHeight * dec.MCUWidth := by
  unfold block_writes
  simp only [h, Bool.false_eq_true, if_false]
  generalize dec.MCUHeight = n
  induction n with
  | zero => simp
  | succ n ih =>
    rw [List.range_succ, List.flatMap_append, List.length_append, ih]
    simp [row_writes]
    ring

theorem keep_x_mul_le (dec : JPEGDecoder) (width : Nat) :
    keep_x_mcus dec width * (dec.MCUWidth : Int) ≤ (width : Int) := by
  unfold keep_x_mcus
  exact_mod_cast Nat.div_mul_le_self width dec.MCUWidth

theorem keep_y_mul_le (dec : JPEGDecoder) (height : Nat) :
    keep_y_mcus dec height * (dec.MCUHeight : Int) ≤ (height : Int) := by
  unfold keep_y_mcus
  exact_mod_cast Nat.div_mul_le_self height dec.MCUHeight

theorem origin_bounds (rel keep : Int) (block c limit : Nat)
    (h0 : 0 ≤ rel) (h1 : rel < keep) (hc : c < block)
    (hk : keep * (block : Int) ≤ (limit : Int)) :
    0 ≤ rel * (block : Int) + (c : Int) ∧ rel * (block : Int) + (c : Int) < (limit : Int) := by
  have hb : (0 : Int) ≤ (block : Int) := by omega
  have h2 : 0 ≤ rel * (block : Int) := mul_nonneg h0 hb
  have h3 : (rel + 1) * (block : Int) ≤ keep * (block : Int) :=
    mul_le_mul_of_nonneg_right (by omega) hb
  have h4 : (rel + 1) * (block : Int) = rel * (block : Int) + (block : Int) := by ring
  constructor
  · omega
  · omega

theorem kept_x_bounds (dec : JPEGDecoder) (width height : Nat) (m : MCU) (c : Nat)
    (h : skips dec width height m = false) (hc : c < dec.MCUWidth) :
    0 ≤ x_origin dec width m + (c : Int) ∧ x_origin dec width m + (c : Int) < (width : Int) := by
  obtain ⟨hx0, hx1, _, _⟩ := (skips_eq_false_iff dec width height m).1 h
  unfold x_origin
  unfold skip_end_x_mcu_index at hx1
  exact origin_bounds _ (keep_x_mcus dec width) _ _ _ (by omega) (by omega) hc
    (keep_x_mul_le dec width)

theorem kept_y_bounds (dec : JPEGDecoder) (width height : Nat) (m : MCU) (r : Nat)
    (h : skips dec width height m = false) (hr : r < dec.MCUHeight) :
    0 ≤ y_origin dec height m + (r : Int) ∧ y_origin dec height m + (r : Int) < (height : Int) := by
  obtain ⟨_, _, hy0, hy1⟩ := (skips_eq_false_iff dec width height m).1 h
  unfold y_origin
  unfold skip_end_y_mcu_index at hy1
  exact origin_bounds _ (keep_y_mcus dec height) _ _ _ (by omega) (by omega) hr
    (keep_y_mul_le dec height)

theorem index_injective (width : Nat) (x1 y1 x2 y2 : Int)
    (hx1 : 0 ≤ x1 ∧ x1 < (width : Int)) (hx2 : 0 ≤ x2 ∧ x2 < (width : Int))
    (h : y1 * (width : Int) + x1 = y2 * (width : Int) + x2) : x1 = x2 ∧ y1 = y2 := by
  have hw : (0 : Int) ≤ (width : Int) := by omega
  rcases lt_trichotomy y1 y2 with hlt | heq | hgt
  · have h3 : (y1 + 1) * (width : Int) ≤ y2 * (width : Int) :=
      mul_le_mul_of_nonneg_right (by omega) hw
    have h4 : (y1 + 1) * (width : Int) = y1 * (width : Int) + (width : Int) := by ring
    omega
  · subst heq
    exact ⟨by omega, rfl⟩
  · have h3 : (y2 + 1) * (width : Int) ≤ y1 * (width : Int) :=
      mul_le_mul_of_nonneg_right (by omega) hw
    have h4 : (y2 + 1) * (width : Int) = y2 * (width : Int) + (width : Int) := by ring
    omega

theorem index_bounds (width height : Nat) (x y : Int)
    (hx : 0 ≤ x ∧ x < (width : Int)) (hy : 0 ≤ y ∧ y < (height : Int)) :
    0 ≤ y * (width : Int) + x ∧ y * (width : Int) + x < (width : Int) * (height : Int) := by
  have hw : (0 : Int) ≤ (width : Int) := by omega
  have h2 : 0 ≤ y * (width : Int) := mul_nonneg hy.1 hw
  have h3 : (y + 1) * (width : Int) ≤ (height : Int) * (width : Int) :=
    mul_le_mul_of_nonneg_right (by omega) hw
  have h4 : (y + 1) * (width : Int) = y * (width : Int) + (width : Int) := by ring
  have h5 : (height : Int) * (width : Int) = (width : Int) * (height : Int) := by ring
  constructor
  · omega
  · omega

theorem block_writes_sound (dec : JPEGDecoder) (width height : Nat) (m : MCU) (w : PixelWrite)
    (hw : w ∈ block_writes dec width height m) :
    (0 ≤ w.current_x ∧ w.current_x < (width : Int))
    ∧ (0 ≤ w.current_y ∧ w.current_y < (height : Int))
    ∧ w.index = w.current_y * (width : Int) + w.current_x := by
  obtain ⟨hk, r, hr, c, hc, rfl⟩ := (mem_block_writes dec width height m w).1 hw
  exact ⟨kept_x_bounds dec width height m c hk hc, kept_y_bounds dec width height m r hk hr, rfl⟩

theorem block_writes_functional (dec : JPEGDecoder) (width height : Nat) (m : MCU)
    (w1 : PixelWrite) (h1 : w1 ∈ block_writes dec width height m)
    (w2 : PixelWrite) (h2 : w2 ∈ block_writes dec width height m)
    (he : w1.index = w2.index) : w1.color = w2.color := by
  obtain ⟨hk, r1, hr1, c1, hc1, rfl⟩ := (mem_block_writes dec width height m w1).1 h1
  obtain ⟨_, r2, hr2, c2, hc2, rfl⟩ := (mem_block_writes dec width height m w2).1 h2
  have hinj := index_injective width _ _ _ _ (kept_x_bounds dec width height m c1 hk hc1)
    (kept_x_bounds dec width height m c2 hk hc2) he
  have e1 : c1 = c2 := by omega
  have e2 : r1 = r2 := by omega
  subst e1; subst e2; rfl

theorem spec_window_iff (total : Int) (keep : Int) (b : Int)
    (hb : 0 ≤ b ∧ b < total) :
    (Int.tdiv (total - keep) 2 ≤ b ∧ b < Int.tdiv (total - keep) 2 + keep)
      ↔ (spec_skip_start total keep ≤ b ∧ b < spec_skip_end total keep) := by
  unfold spec_skip_end spec_skip_start spec_discard
  rcases tdiv_two_cases (total - keep) with ⟨h0, h⟩ | ⟨h0, h⟩
  · rw [h]
  · rw [h]
    constructor
    · intro _; omega
    · intro _; omega

theorem skips_iff_spec (dec : JPEGDecoder) (width height : Nat) (m : MCU)
    (hx : 0 ≤ m.MCUx ∧ m.MCUx < dec.MCUSPerRow) (hy : 0 ≤ m.MCUy ∧ m.MCUy < dec.MCUSPerCol) :
    skips dec width height m = false ↔ spec_kept dec width height m.MCUx m.MCUy := by
  rw [skips_eq_false_iff]
  have ex := spec_window_iff dec.MCUSPerRow (spec_keep width dec.MCUWidth) m.MCUx hx
  have ey := spec_window_iff dec.MCUSPerCol (spec_keep height dec.MCUHeight) m.MCUy hy
  unfold spec_kept
  unfold skip_end_x_mcu_index skip_end_y_mcu_index skip_start_x_mcus skip_start_y_mcus
    skip_x_mcus skip_y_mcus keep_x_mcus keep_y_mcus
  unfold spec_keep at ex ey
  unfold spec_keep
  constructor
  · rintro ⟨a, b, c, d⟩
    exact ⟨(ex.1 ⟨a, b⟩).1, (ex.1 ⟨a, b⟩).2, (ey.1 ⟨c, d⟩).1, (ey.1 ⟨c, d⟩).2⟩
  · rintro ⟨a, b, c, d⟩
    exact ⟨(ex.2 ⟨a, b⟩).1, (ex.2 ⟨a, b⟩).2, (ey.2 ⟨c, d⟩).1, (ey.2 ⟨c, d⟩).2⟩

/-! ## Crop placement (claims C1, C2 and C10) -/

/-- C1: for positive block dimensions and a block whose grid coordinate lies
inside the grid, the loop body of `jpeg_store_data` stores the block (all of its
`MCUHeight * MCUWidth` pixels) if and only if the coordinate lies in the window
of the spec, `skip_start_x <= bx < skip_end_x` and
`skip_start_y <= by < skip_end_y` with `keep = floor(target / block_dimension)`,
`discard = blocks_total - keep`, `skip_start = floor(discard / 2)` and
`skip_end = skip_start + keep`; outside the window the state is returned as it
was, in particular when `keep <= 0` on either axis. -/
theorem store_mcu_keeps_iff_window (dec : JPEGDecoder) (width height : Nat)
    (s : RasterState) (m : MCU)
    (hW : 0 < dec.MCUWidth) (hH : 0 < dec.MCUHeight)
    (hx : 0 ≤ m.MCUx ∧ m.MCUx < dec.MCUSPerRow)
    (hy : 0 ≤ m.MCUy ∧ m.MCUy < dec.MCUSPerCol) :
    ((store_mcu dec width height s m).writes ≠ s.writes
        ↔ spec_kept dec width height m.MCUx m.MCUy)
    ∧ (spec_kept dec width height m.MCUx m.MCUy →
        (store_mcu dec width height s m).writes.length
          = s.writes.length + dec.MCUHeight * dec.MCUWidth)
    ∧ (¬ spec_kept dec width height m.MCUx m.MCUy → store_mcu dec width height s m = s)
    ∧ ((spec_keep width dec.MCUWidth ≤ 0 ∨ spec_keep height dec.MCUHeight ≤ 0) →
        ¬ spec_kept dec width height m.MCUx m.MCUy ∧ store_mcu dec width height s m = s) := by
  have hiff := skips_iff_spec dec width height m hx hy
  have hlen : spec_kept dec width height m.MCUx m.MCUy →
      (store_mcu dec width height s m).writes.length
        = s.writes.length + dec.MCUHeight * dec.MCUWidth := by
    intro hk
    rw [store_mcu_eq]
    simp only [List.length_append]
    rw [length_block_writes dec width height m (hiff.2 hk)]
  have hskip : ¬ spec_kept dec width height m.MCUx m.MCUy →
      store_mcu dec width height s m = s := by
    intro hk
    have hs : skips dec width height m = true := by
      cases h : skips dec width height m
      · exact absurd (hiff.1 h) hk
      · rfl
    unfold store_mcu
    simp [hs]
  have hempty : (spec_keep width dec.MCUWidth ≤ 0 ∨ spec_keep height dec.MCUHeight ≤ 0) →
      ¬ spec_kept dec width height m.MCUx m.MCUy := by
    intro h0 hk
    obtain ⟨a, b, c, d⟩ := hk
    unfold spec_skip_end at b d
    rcases h0 with h0 | h0
    · omega
    · omega
  refine ⟨⟨?_, ?_⟩, hlen, hskip, fun h0 => ⟨hempty h0, hskip (hempty h0)⟩⟩
  · intro hne
    by_contra hk
    exact hne (by rw [hskip hk])
  · intro hk hEq
    have h1 := hlen hk
    rw [hEq] at h1
    have hpos : 0 < dec.MCUHeight * dec.MCUWidth := Nat.mul_pos hH hW
    omega

/-- The block at (1, 3) of a 6 x 12 grid lies in the window of a 48 x 48 target
and its 128 pixels are stored. -/
theorem store_mcu_keeps_iff_window_witness :
    (0 < (frameDecoder 6 12).MCUWidth ∧ 0 < (frameDecoder 6 12).MCUHeight
      ∧ (0 ≤ (frameBlock 6 1 3).MCUx ∧ (frameBlock 6 1 3).MCUx < (frameDecoder 6 12).MCUSPerRow)
      ∧ (0 ≤ (frameBlock 6 1 3).MCUy ∧ (frameBlock 6 1 3).MCUy < (frameDecoder 6 12).MCUSPerCol))
    ∧ spec_kept (frameDecoder 6 12) 48 48 1 3
    ∧ (store_mcu (frameDecoder 6 12) 48 48 blankState (frameBlock 6 1 3)).writes.length
        = blankState.writes.length + (frameDecoder 6 12).MCUHeight * (frameDecoder 6 12).MCUWidth :=
  ⟨⟨by decide, by decide, by decide, by decide⟩, by unfold spec_kept; decide,
    (store_mcu_keeps_iff_window (frameDecoder 6 12) 48 48 blankState (frameBlock 6 1 3)
      (by decide) (by decide) (by decide) (by decide)).2.1 (by unfold spec_kept; decide)⟩

/-- C2: a block that `jpeg_store_data` keeps has relative block coordinate
`(MCUx - skip_start_x, MCUy - skip_start_y)` and pixel origin
`(relative_x * MCUWidth, relative_y * MCUHeight)`; after the loop body, for every
`row < MCUHeight` and `col < MCUWidth` the raster cell of linear index
`(y_origin + row) * width + (x_origin + col)` holds the pixel number
`row * MCUWidth + col` of the block, and every other cell is unchanged. A block
that is skipped leaves the whole raster unchanged. -/
theorem store_mcu_places_block (dec : JPEGDecoder) (width height : Nat)
    (s : RasterState) (m : MCU) :
    (skips dec width height m = false →
      (∀ row col : Nat, row < dec.MCUHeight → col < dec.MCUWidth →
        (store_mcu dec width height s m).out_buf
            ((((m.MCUy - skip_start_y_mcus dec height) * (dec.MCUHeight : Int)) + (row : Int))
                * (width : Int)
              + (((m.MCUx - skip_start_x_mcus dec width) * (dec.MCUWidth : Int)) + (col : Int)))
          = m.pImage (row * dec.MCUWidth + col))
      ∧ (∀ i : Int,
          (¬ ∃ row col : Nat, row < dec.MCUHeight ∧ col < dec.MCUWidth ∧
            i = (((m.MCUy - skip_start_y_mcus dec height) * (dec.MCUHeight : Int)) + (row : Int))
                  * (width : Int)
                + (((m.MCUx - skip_start_x_mcus dec width) * (dec.MCUWidth : Int)) + (col : Int))) →
          (store_mcu dec width height s m).out_buf i = s.out_buf i))
    ∧ (skips dec width height m = true → (store_mcu dec width height s m).out_buf = s.out_buf) := by
  constructor
  · intro hk
    rw [store_mcu_eq]
    constructor
    · intro row col hr hc
      have hmem : ({ current_x := x_origin dec width m + (col : Int)
                     current_y := y_origin dec height m + (row : Int)
                     index := ((y_origin dec height m + (row : Int)) * (width : Int))
                       + (x_origin dec width m + (col : Int))
                     color := m.pImage (row * dec.MCUWidth + col) } : PixelWrite)
          ∈ block_writes dec width height m :=
        (mem_block_writes dec width height m _).2 ⟨hk, row, hr, col, hc, rfl⟩
      exact replay_of_mem (block_writes dec width height m) s.out_buf
        (block_writes_functional dec width height m) _ hmem
    · intro i hi
      apply replay_of_not_mem
      intro w hw he
      obtain ⟨_, r, hr, c, hc, rfl⟩ := (mem_block_writes dec width height m w).1 hw
      exact hi ⟨r, c, hr, hc, he.symm⟩
  · intro hs
    unfold store_mcu
    simp [hs]

/-- C10: whatever the grid, the block dimensions, the target size and the
blocks that the decoder yields, every store that `jpeg_store_data` executes has
`0 <= current_x < width`, `0 <= current_y < height` and the index
`current_y * width + current_x`, which lies in `[0, width * height)`; two stores
with the same index have the same `(current_x, current_y)`; and the cells
outside `[0, width * height)` keep their value. -/
theorem jpeg_store_data_writes_in_bounds (dec : JPEGDecoder) (out_buf : Int → Nat)
    (width height : Nat) :
    (∀ w ∈ (jpeg_store_data dec out_buf width height).writes,
        0 ≤ w.current_x ∧ w.current_x < (width : Int)
        ∧ 0 ≤ w.current_y ∧ w.current_y < (height : Int)
        ∧ w.index = w.current_y * (width : Int) + w.current_x
        ∧ 0 ≤ w.index ∧ w.index < (width : Int) * (height : Int))
    ∧ (∀ w1 ∈ (jpeg_store_data dec out_buf width height).writes,
        ∀ w2 ∈ (jpeg_store_data dec out_buf width height).writes,
          w1.index = w2.index → w1.current_x = w2.current_x ∧ w1.current_y = w2.current_y)
    ∧ (∀ i : Int, (i < 0 ∨ (width : Int) * (height : Int) ≤ i) →
        (jpeg_store_data dec out_buf width height).out_buf i = out_buf i) := by
  rw [jpeg_store_data_eq]
  have hall : ∀ w ∈ dec.blocks.flatMap (block_writes dec width height),
      (0 ≤ w.current_x ∧ w.current_x < (width : Int))
      ∧ (0 ≤ w.current_y ∧ w.current_y < (height : Int))
      ∧ w.index = w.current_y * (width : Int) + w.current_x := by
    intro w hw
    obtain ⟨m, _, hm⟩ := List.mem_flatMap.1 hw
    exact block_writes_sound dec width height m w hm
  refine ⟨?_, ?_, ?_⟩
  · intro w hw
    obtain ⟨hx, hy, hi⟩ := hall w hw
    have hb := index_bounds width height w.current_x w.current_y hx hy
    rw [← hi] at hb
    exact ⟨hx.1, hx.2, hy.1, hy.2, hi, hb.1, hb.2⟩
  · intro w1 h1 w2 h2 he
    obtain ⟨hx1, _, hi1⟩ := hall w1 h1
    obtain ⟨hx2, _, hi2⟩ := hall w2 h2
    rw [hi1, hi2] at he
    exact index_injective width _ _ _ _ hx1 hx2 he
  · intro i hi
    apply replay_of_not_mem
    intro w hw he
    obtain ⟨hx, hy, hidx⟩ := hall w hw
    have hb := index_bounds width height w.current_x w.current_y hx hy
    rw [← hidx, he] at hb
    omega

/-! ## Centering and coverage over one pass (claim C7) -/

theorem keep_x_nonneg (dec : JPEGDecoder) (width : Nat) : 0 ≤ keep_x_mcus dec width :=
  Int.ofNat_zero_le _

theorem keep_y_nonneg (dec : JPEGDecoder) (height : Nat) : 0 ≤ keep_y_mcus dec height :=
  Int.ofNat_zero_le _

theorem centered_of_fits (total keep : Int) (h : keep ≤ total) :
    0 ≤ Int.tdiv (total - keep) 2 ∧ Int.tdiv (total - keep) 2 = (total - keep) / 2
      ∧ Int.tdiv (total - keep) 2 + keep ≤ total := by
  have h0 : (0 : Int) ≤ total - keep := by omega
  rw [Int.tdiv_eq_ediv h0 (by decide)]
  omega

theorem length_flatMap_block_writes (dec : JPEGDecoder) (width height : Nat) (l : List MCU) :
    (l.flatMap (block_writes dec width height)).length
      = (l.filter fun m => !skips dec width height m).length
          * (dec.MCUHeight * dec.MCUWidth) := by
  induction l with
  | nil => simp
  | cons m l ih =>
    rw [List.flatMap_cons, List.length_append, ih]
    cases h : skips dec width height m
    · rw [length_block_writes dec width height m h]
      simp [h]
      ring
    · simp [h, block_writes]

theorem kept_coords_nodup (dec : JPEGDecoder) (width height : Nat)
    (hnodup : (dec.blocks.map coord).Nodup) :
    ((kept_blocks dec width height).map coord).Nodup :=
  List.Nodup.sublist (List.Sublist.map coord (List.filter_sublist dec.blocks)) hnodup

theorem mem_kept_blocks (dec : JPEGDecoder) (width height : Nat) (m : MCU) :
    m ∈ kept_blocks dec width height ↔ m ∈ dec.blocks ∧ skips dec width height m = false := by
  unfold kept_blocks
  simp [List.mem_filter]

theorem kept_coords_toFinset (dec : JPEGDecoder) (width height : Nat)
    (hKx : keep_x_mcus dec width ≤ dec.MCUSPerRow)
    (hKy : keep_y_mcus dec height ≤ dec.MCUSPerCol)
    (hgrid : ∀ p : Int × Int, p ∈ dec.blocks.map coord ↔
      (0 ≤ p.1 ∧ p.1 < dec.MCUSPerRow ∧ 0 ≤ p.2 ∧ p.2 < dec.MCUSPerCol)) :
    ((kept_blocks dec width height).map coord).toFinset
      = Finset.Ico (skip_start_x_mcus dec width) (skip_end_x_mcu_index dec width)
          ×ˢ Finset.Ico (skip_start_y_mcus dec height) (skip_end_y_mcu_index dec height) := by
  have kx0 := keep_x_nonneg dec width
  have ky0 := keep_y_nonneg dec height
  obtain ⟨sx0, _, sx1⟩ := centered_of_fits dec.MCUSPerRow (keep_x_mcus dec width) hKx
  obtain ⟨sy0, _, sy1⟩ := centered_of_fits dec.MCUSPerCol (keep_y_mcus dec height) hKy
  ext p
  simp only [List.mem_toFinset, List.mem_map, Finset.mem_product, Finset.mem_Ico, mem_kept_blocks]
  constructor
  · rintro ⟨m, ⟨_, hk⟩, rfl⟩
    obtain ⟨a, b, c, d⟩ := (skips_eq_false_iff dec width height m).1 hk
    exact ⟨⟨a, b⟩, c, d⟩
  · rintro ⟨⟨a, b⟩, c, d⟩
    have hin : p ∈ dec.blocks.map coord := by
      rw [hgrid]
      unfold skip_end_x_mcu_index skip_start_x_mcus skip_x_mcus at *
      unfold skip_end_y_mcu_index skip_start_y_mcus skip_y_mcus at *
      refine ⟨by omega, by omega, by omega, by omega⟩
    obtain ⟨m, hm, rfl⟩ := List.mem_map.1 hin
    exact ⟨m, ⟨hm, (skips_eq_false_iff dec width height m).2 ⟨a, b, c, d⟩⟩, rfl⟩

theorem length_kept_blocks (dec : JPEGDecoder) (width height : Nat)
    (hKx : keep_x_mcus dec width ≤ dec.MCUSPerRow)
    (hKy : keep_y_mcus dec height ≤ dec.MCUSPerCol)
    (hnodup : (dec.blocks.map coord).Nodup)
    (hgrid : ∀ p : Int × Int, p ∈ dec.blocks.map coord ↔
      (0 ≤ p.1 ∧ p.1 < dec.MCUSPerRow ∧ 0 ≤ p.2 ∧ p.2 < dec.MCUSPerCol)) :
    (kept_blocks dec width height).length = (width / dec.MCUWidth) * (height / dec.MCUHeight) := by
  have h1 := List.toFinset_card_of_nodup (kept_coords_nodup dec width height hnodup)
  rw [kept_coords_toFinset dec width height hKx hKy hgrid, Finset.card_product, Int.card_Ico,
    Int.card_Ico, List.length_map] at h1
  have ex : skip_end_x_mcu_index dec width - skip_start_x_mcus dec width
      = ((width / dec.MCUWidth : Nat) : Int) := by
    unfold skip_end_x_mcu_index keep_x_mcus; ring
  have ey : skip_end_y_mcu_index dec height - skip_start_y_mcus dec height
      = ((height / dec.MCUHeight : Nat) : Int) := by
    unfold skip_end_y_mcu_index keep_y_mcus; ring
  rw [ex, ey, Int.toNat_ofNat, Int.toNat_ofNat] at h1
  exact h1.symm

theorem mem_positions (dec : JPEGDecoder) (width height : Nat)
    (hKx : keep_x_mcus dec width ≤ dec.MCUSPerRow)
    (hKy : keep_y_mcus dec height ≤ dec.MCUSPerCol)
    (hgrid : ∀ p : Int × Int, p ∈ dec.blocks.map coord ↔
      (0 ≤ p.1 ∧ p.1 < dec.MCUSPerRow ∧ 0 ≤ p.2 ∧ p.2 < dec.MCUSPerCol))
    (p : Int × Int) :
    p ∈ (dec.blocks.flatMap (block_writes dec width height)).map position ↔
      (0 ≤ p.1 ∧ p.1 < keep_x_mcus dec width * (dec.MCUWidth : Int)
        ∧ 0 ≤ p.2 ∧ p.2 < keep_y_mcus dec height * (dec.MCUHeight : Int)) := by
  have kx0 := keep_x_nonneg dec width
  have ky0 := keep_y_nonneg dec height
  obtain ⟨sx0, _, sx1⟩ := centered_of_fits dec.MCUSPerRow (keep_x_mcus dec width) hKx
  obtain ⟨sy0, _, sy1⟩ := centered_of_fits dec.MCUSPerCol (keep_y_mcus dec height) hKy
  constructor
  · intro hp
    obtain ⟨w, hw, rfl⟩ := List.mem_map.1 hp
    obtain ⟨m, _, hm⟩ := List.mem_flatMap.1 hw
    obtain ⟨hk, r, hr, c, hc, rfl⟩ := (mem_block_writes dec width height m w).1 hm
    obtain ⟨a, b, _, d⟩ := (skips_eq_false_iff dec width height m).1 hk
    unfold skip_end_x_mcu_index at b
    unfold skip_end_y_mcu_index at d
    have hx := origin_bounds (m.MCUx - skip_start_x_mcus dec width) (keep_x_mcus dec width)
      dec.MCUWidth c ((width / dec.MCUWidth) * dec.MCUWidth) (by omega) (by omega) hc
      (by unfold keep_x_mcus; push_cast; exact le_refl _)
    have hy := origin_bounds (m.MCUy - skip_start_y_mcus dec height) (keep_y_mcus dec height)
      dec.MCUHeight r ((height / dec.MCUHeight) * dec.MCUHeight) (by omega) (by omega) hr
      (by unfold keep_y_mcus; push_cast; exact le_refl _)
    have ex : (((width / dec.MCUWidth * dec.MCUWidth : Nat)) : Int)
        = keep_x_mcus dec width * (dec.MCUWidth : Int) := by unfold keep_x_mcus; push_cast; rfl
    have ey : (((height / dec.MCUHeight * dec.MCUHeight : Nat)) : Int)
        = keep_y_mcus dec height * (dec.MCUHeight : Int) := by unfold keep_y_mcus; push_cast; rfl
    rw [ex] at hx
    rw [ey] at hy
    exact ⟨hx.1, hx.2, hy.1, hy.2⟩
  · rintro ⟨hx0, hx1, hy0, hy1⟩
    have hWpos : (0 : Int) < (dec.MCUWidth : Int) := by
      rcases Nat.eq_zero_or_pos dec.MCUWidth with h | h
      · rw [h] at hx1; simp at hx1; omega
      · exact_mod_cast h
    have hHpos : (0 : Int) < (dec.MCUHeight : Int) := by
      rcases Nat.eq_zero_or_pos dec.MCUHeight with h | h
      · rw [h] at hy1; simp at hy1; omega
      · exact_mod_cast h
    -- the block column and row that contain the position
    have hqx0 : 0 ≤ p.1 / (dec.MCUWidth : Int) := Int.ediv_nonneg hx0 (le_of_lt hWpos)
    have hqx1 : p.1 / (dec.MCUWidth : Int) < keep_x_mcus dec width :=
      Int.ediv_lt_of_lt_mul hWpos hx1
    have hqy0 : 0 ≤ p.2 / (dec.MCUHeight : Int) := Int.ediv_nonneg hy0 (le_of_lt hHpos)
    have hqy1 : p.2 / (dec.MCUHeight : Int) < keep_y_mcus dec height :=
      Int.ediv_lt_of_lt_mul hHpos hy1
    have hrx0 : 0 ≤ p.1 % (dec.MCUWidth : Int) := Int.emod_nonneg _ (ne_of_gt hWpos)
    have hrx1 : p.1 % (dec.MCUWidth : Int) < (dec.MCUWidth : Int) := Int.emod_lt_of_pos _ hWpos
    have hry0 : 0 ≤ p.2 % (dec.MCUHeight : Int) := Int.emod_nonneg _ (ne_of_gt hHpos)
    have hry1 : p.2 % (dec.MCUHeight : Int) < (dec.MCUHeight : Int) := Int.emod_lt_of_pos _ hHpos
    have hin : (skip_start_x_mcus dec width + p.1 / (dec.MCUWidth : Int),
        skip_start_y_mcus dec height + p.2 / (dec.MCUHeight : Int)) ∈ dec.blocks.map coord := by
      rw [hgrid]
      unfold skip_start_x_mcus skip_x_mcus skip_start_y_mcus skip_y_mcus
      refine ⟨by omega, by omega, by omega, by omega⟩
    obtain ⟨m, hm, hmc⟩ := List.mem_map.1 hin
    have hmx : m.MCUx = skip_start_x_mcus dec width + p.1 / (dec.MCUWidth : Int) :=
      congrArg Prod.fst hmc
    have hmy : m.MCUy = skip_start_y_mcus dec height + p.2 / (dec.MCUHeight : Int) :=
      congrArg Prod.snd hmc
    have hk : skips dec width height m = false := by
      rw [skips_eq_false_iff]
      unfold skip_end_x_mcu_index skip_end_y_mcu_index
      refine ⟨by omega, by omega, by omega, by omega⟩
    refine List.mem_map.2 ⟨{ current_x := x_origin dec width m + ((p.1 % (dec.MCUWidth : Int)).toNat : Int)
                             current_y := y_origin dec height m + ((p.2 % (dec.MCUHeight : Int)).toNat : Int)
                             index := ((y_origin dec height m + ((p.2 % (dec.MCUHeight : Int)).toNat : Int))
                               * (width : Int))
                               + (x_origin dec width m + ((p.1 % (dec.MCUWidth : Int)).toNat : Int))
                             color := m.pImage ((p.2 % (dec.MCUHeight : Int)).toNat * dec.MCUWidth
                               + (p.1 % (dec.MCUWidth : Int)).toNat) }, ?_, ?_⟩
    · apply List.mem_flatMap.2
      refine ⟨m, hm, (mem_block_writes dec width height m _).2
        ⟨hk, (p.2 % (dec.MCUHeight : Int)).toNat, by omega,
          (p.1 % (dec.MCUWidth : Int)).toNat, by omega, rfl⟩⟩
    · unfold position x_origin y_origin
      have e1 := Int.ediv_add_emod p.1 (dec.MCUWidth : Int)
      have e2 := Int.ediv_add_emod p.2 (dec.MCUHeight : Int)
      have t1 : ((p.1 % (dec.MCUWidth : Int)).toNat : Int) = p.1 % (dec.MCUWidth : Int) :=
        Int.toNat_of_nonneg hrx0
      have t2 : ((p.2 % (dec.MCUHeight : Int)).toNat : Int) = p.2 % (dec.MCUHeight : Int) :=
        Int.toNat_of_nonneg hry0
      apply Prod.ext
      · show (m.MCUx - skip_start_x_mcus dec width) * (dec.MCUWidth : Int)
            + ((p.1 % (dec.MCUWidth : Int)).toNat : Int) = p.1
        rw [hmx, t1]
        linarith [mul_comm (dec.MCUWidth : Int) (p.1 / (dec.MCUWidth : Int))]
      · show (m.MCUy - skip_start_y_mcus dec height) * (dec.MCUHeight : Int)
            + ((p.2 % (dec.MCUHeight : Int)).toNat : Int) = p.2
        rw [hmy, t2]
        linarith [mul_comm (dec.MCUHeight : Int) (p.2 / (dec.MCUHeight : Int))]

theorem pass_writes_functional (dec : JPEGDecoder) (width height : Nat)
    (hnodup : (dec.blocks.map coord).Nodup)
    (w1 : PixelWrite) (h1 : w1 ∈ dec.blocks.flatMap (block_writes dec width height))
    (w2 : PixelWrite) (h2 : w2 ∈ dec.blocks.flatMap (block_writes dec width height))
    (he : w1.index = w2.index) : w1.color = w2.color := by
  obtain ⟨m1, hm1, hb1⟩ := List.mem_flatMap.1 h1
  obtain ⟨m2, hm2, hb2⟩ := List.mem_flatMap.1 h2
  obtain ⟨hk1, r1, hr1, c1, hc1, rfl⟩ := (mem_block_writes dec width height m1 w1).1 hb1
  obtain ⟨hk2, r2, hr2, c2, hc2, rfl⟩ := (mem_block_writes dec width height m2 w2).1 hb2
  obtain ⟨ex, ey⟩ := index_injective width _ _ _ _ (kept_x_bounds dec width height m1 c1 hk1 hc1)
    (kept_x_bounds dec width height m2 c2 hk2 hc2) he
  unfold x_origin at ex
  unfold y_origin at ey
  obtain ⟨ec, ebx⟩ := index_injective dec.MCUWidth (c1 : Int) _ (c2 : Int) _
    ⟨by omega, by omega⟩ ⟨by omega, by omega⟩ ex
  obtain ⟨er, eby⟩ := index_injective dec.MCUHeight (r1 : Int) _ (r2 : Int) _
    ⟨by omega, by omega⟩ ⟨by omega, by omega⟩ ey
  have hcoord : coord m1 = coord m2 := by
    unfold coord
    exact Prod.ext (by show m1.MCUx = m2.MCUx; omega) (by show m1.MCUy = m2.MCUy; omega)
  have hm : m1 = m2 := List.inj_on_of_nodup_map hnodup hm1 hm2 hcoord
  subst hm
  have e1 : c1 = c2 := by omega
  have e2 : r1 = r2 := by omega
  subst e1; subst e2; rfl

theorem jpeg_store_data_cell (dec : JPEGDecoder) (out_buf : Int → Nat) (width height : Nat)
    (hnodup : (dec.blocks.map coord).Nodup) (m : MCU) (hm : m ∈ dec.blocks)
    (hk : skips dec width height m = false) (r c : Nat)
    (hr : r < dec.MCUHeight) (hc : c < dec.MCUWidth) :
    (jpeg_store_data dec out_buf width height).out_buf
        (((y_origin dec height m + (r : Int)) * (width : Int)) + (x_origin dec width m + (c : Int)))
      = m.pImage (r * dec.MCUWidth + c) := by
  rw [jpeg_store_data_eq]
  have hmem : ({ current_x := x_origin dec width m + (c : Int)
                 current_y := y_origin dec height m + (r : Int)
                 index := ((y_origin dec height m + (r : Int)) * (width : Int))
                   + (x_origin dec width m + (c : Int))
                 color := m.pImage (r * dec.MCUWidth + c) } : PixelWrite)
      ∈ dec.blocks.flatMap (block_writes dec width height) :=
    List.mem_flatMap.2 ⟨m, hm, (mem_block_writes dec width height m _).2 ⟨hk, r, hr, c, hc, rfl⟩⟩
  exact replay_of_mem _ out_buf (pass_writes_functional dec width height hnodup) _ hmem

theorem writes_index_bounds (dec : JPEGDecoder) (out_buf : Int → Nat) (width height : Nat)
    (w : PixelWrite) (hw : w ∈ (jpeg_store_data dec out_buf width height).writes) :
    0 ≤ w.index ∧ w.index < (width : Int) * (height : Int) := by
  rw [jpeg_store_data_eq] at hw
  obtain ⟨m, _, hm⟩ := List.mem_flatMap.1 hw
  obtain ⟨hx, hy, hi⟩ := block_writes_sound dec width height m w hm
  rw [hi]
  exact index_bounds width height w.current_x w.current_y hx hy

theorem jpeg_store_data_outside (dec : JPEGDecoder) (out_buf : Int → Nat) (width height : Nat)
    (i : Int) (hi : i < 0 ∨ (width : Int) * (height : Int) ≤ i) :
    (jpeg_store_data dec out_buf width height).out_buf i = out_buf i := by
  have hb := writes_index_bounds dec out_buf width height
  rw [jpeg_store_data_eq] at hb ⊢
  apply replay_of_not_mem
  intro w hw he
  have := hb w hw
  rw [he] at this
  omega

theorem frameDecoder_grid (nx ny : Nat) (p : Int × Int) :
    p ∈ (frameDecoder nx ny).blocks.map coord ↔
      (0 ≤ p.1 ∧ p.1 < (frameDecoder nx ny).MCUSPerRow
        ∧ 0 ≤ p.2 ∧ p.2 < (frameDecoder nx ny).MCUSPerCol) := by
  show p ∈ (frameDecoder nx ny).blocks.map coord ↔
      (0 ≤ p.1 ∧ p.1 < (nx : Int) ∧ 0 ≤ p.2 ∧ p.2 < (ny : Int))
  unfold frameDecoder
  simp only [List.mem_map, List.mem_flatMap, List.mem_range]
  constructor
  · rintro ⟨m, ⟨y, hy, x, hx, rfl⟩, rfl⟩
    unfold coord
    simp only
    omega
  · rintro ⟨a, b, c, d⟩
    refine ⟨_, ⟨p.2.toNat, by omega, p.1.toNat, by omega, rfl⟩, ?_⟩
    unfold coord
    exact Prod.ext (Int.toNat_of_nonneg a) (Int.toNat_of_nonneg c)

theorem frameBlock_mem (nx ny x y : Nat) (hx : x < nx) (hy : y < ny) :
    frameBlock nx x y ∈ (frameDecoder nx ny).blocks :=
  List.mem_flatMap.2 ⟨y, List.mem_range.2 hy, List.mem_map.2 ⟨x, List.mem_range.2 hx, rfl⟩⟩

set_option maxRecDepth 100000 in
theorem frameDecoder_6_12_nodup : ((frameDecoder 6 12).blocks.map coord).Nodup := by
  decide

/-- C7: when the keep counts do not exceed the grid and the decoder yields
every grid coordinate exactly once, then on each axis
`skip_start = floor((B - K) / 2)`, `0 <= skip_start` and `skip_start + keep <= B`;
the kept blocks are `Kx * Ky` in number, each coordinate once; the map
`(bx, by) -> (bx - skip_start_x, by - skip_start_y)` sends the kept blocks into
`[0, Kx) x [0, Ky)`, is injective and reaches every pair of that range; and the
positions `(current_x, current_y)` stored during the pass are exactly the
positions of `[0, Kx * MCUWidth) x [0, Ky * MCUHeight)`, each stored once. -/
theorem kept_blocks_tile_output (dec : JPEGDecoder) (out_buf : Int → Nat) (width height : Nat)
    (hKx : keep_x_mcus dec width ≤ dec.MCUSPerRow)
    (hKy : keep_y_mcus dec height ≤ dec.MCUSPerCol)
    (hnodup : (dec.blocks.map coord).Nodup)
    (hgrid : ∀ p : Int × Int, p ∈ dec.blocks.map coord ↔
      (0 ≤ p.1 ∧ p.1 < dec.MCUSPerRow ∧ 0 ≤ p.2 ∧ p.2 < dec.MCUSPerCol)) :
    (skip_start_x_mcus dec width = (dec.MCUSPerRow - keep_x_mcus dec width) / 2
      ∧ 0 ≤ skip_start_x_mcus dec width
      ∧ skip_start_x_mcus dec width + keep_x_mcus dec width ≤ dec.MCUSPerRow)
    ∧ (skip_start_y_mcus dec height = (dec.MCUSPerCol - keep_y_mcus dec height) / 2
      ∧ 0 ≤ skip_start_y_mcus dec height
      ∧ skip_start_y_mcus dec height + keep_y_mcus dec height ≤ dec.MCUSPerCol)
    ∧ (kept_blocks dec width height).length = (width / dec.MCUWidth) * (height / dec.MCUHeight)
    ∧ ((kept_blocks dec width height).map coord).Nodup
    ∧ (∀ m ∈ kept_blocks dec width height,
        0 ≤ m.MCUx - skip_start_x_mcus dec width
        ∧ m.MCUx - skip_start_x_mcus dec width < keep_x_mcus dec width
        ∧ 0 ≤ m.MCUy - skip_start_y_mcus dec height
        ∧ m.MCUy - skip_start_y_mcus dec height < keep_y_mcus dec height)
    ∧ (∀ m1 ∈ kept_blocks dec width height, ∀ m2 ∈ kept_blocks dec width height,
        m1.MCUx - skip_start_x_mcus dec width = m2.MCUx - skip_start_x_mcus dec width →
        m1.MCUy - skip_start_y_mcus dec height = m2.MCUy - skip_start_y_mcus dec height →
        m1 = m2)
    ∧ (∀ i j : Int, 0 ≤ i → i < keep_x_mcus dec width → 0 ≤ j → j < keep_y_mcus dec height →
        ∃ m ∈ kept_blocks dec width height,
          m.MCUx - skip_start_x_mcus dec width = i ∧ m.MCUy - skip_start_y_mcus dec height = j)
    ∧ (∀ p : Int × Int,
        p ∈ (jpeg_store_data dec out_buf width height).writes.map position ↔
          (0 ≤ p.1 ∧ p.1 < keep_x_mcus dec width * (dec.MCUWidth : Int)
            ∧ 0 ≤ p.2 ∧ p.2 < keep_y_mcus dec height * (dec.MCUHeight : Int)))
    ∧ ((jpeg_store_data dec out_buf width height).writes.map position).Nodup := by
  have cx := centered_of_fits dec.MCUSPerRow (keep_x_mcus dec width) hKx
  have cy := centered_of_fits dec.MCUSPerCol (keep_y_mcus dec height) hKy
  have hlen := length_kept_blocks dec width height hKx hKy hnodup hgrid
  have hpos := mem_positions dec width height hKx hKy hgrid
  refine ⟨⟨cx.2.1, cx.1, cx.2.2⟩, ⟨cy.2.1, cy.1, cy.2.2⟩, hlen,
    kept_coords_nodup dec width height hnodup, ?_, ?_, ?_, ?_, ?_⟩
  · intro m hm
    obtain ⟨_, hk⟩ := (mem_kept_blocks dec width height m).1 hm
    obtain ⟨a, b, c, d⟩ := (skips_eq_false_iff dec width height m).1 hk
    unfold skip_end_x_mcu_index at b
    unfold skip_end_y_mcu_index at d
    exact ⟨by omega, by omega, by omega, by omega⟩
  · intro m1 h1 m2 h2 ex ey
    obtain ⟨hm1, _⟩ := (mem_kept_blocks dec width height m1).1 h1
    obtain ⟨hm2, _⟩ := (mem_kept_blocks dec width height m2).1 h2
    refine List.inj_on_of_nodup_map hnodup hm1 hm2 ?_
    unfold coord
    exact Prod.ext (by show m1.MCUx = m2.MCUx; omega) (by show m1.MCUy = m2.MCUy; omega)
  · intro i j hi0 hi1 hj0 hj1
    have hin : (skip_start_x_mcus dec width + i, skip_start_y_mcus dec height + j)
        ∈ dec.blocks.map coord := by
      rw [hgrid]
      have := cx.1; have := cx.2.2; have := cy.1; have := cy.2.2
      unfold skip_start_x_mcus skip_x_mcus skip_start_y_mcus skip_y_mcus
      exact ⟨by omega, by omega, by omega, by omega⟩
    obtain ⟨m, hm, hmc⟩ := List.mem_map.1 hin
    have hmx : m.MCUx = skip_start_x_mcus dec width + i := congrArg Prod.fst hmc
    have hmy : m.MCUy = skip_start_y_mcus dec height + j := congrArg Prod.snd hmc
    have hk : skips dec width height m = false := by
      rw [skips_eq_false_iff]
      unfold skip_end_x_mcu_index skip_end_y_mcu_index
      exact ⟨by omega, by omega, by omega, by omega⟩
    exact ⟨m, (mem_kept_blocks dec width height m).2 ⟨hm, hk⟩, by omega, by omega⟩
  · intro p
    rw [jpeg_store_data_eq]
    exact hpos p
  · rw [jpeg_store_data_eq]
    show ((dec.blocks.flatMap (block_writes dec width height)).map position).Nodup
    rw [← Multiset.coe_nodup, ← Multiset.toFinset_card_eq_card_iff_nodup]
    have hfin : (↑((dec.blocks.flatMap (block_writes dec width height)).map position)
          : Multiset (Int × Int)).toFinset
        = Finset.Ico 0 (keep_x_mcus dec width * (dec.MCUWidth : Int))
            ×ˢ Finset.Ico 0 (keep_y_mcus dec height * (dec.MCUHeight : Int)) := by
      ext p
      simp only [Multiset.mem_toFinset, Multiset.mem_coe, Finset.mem_product, Finset.mem_Ico]
      rw [hpos p]
      tauto
    rw [hfin, Finset.card_product, Int.card_Ico, Int.card_Ico, Multiset.coe_card, List.length_map,
      length_flatMap_block_writes]
    have hl : (dec.blocks.filter fun m => !skips dec width height m).length
        = (width / dec.MCUWidth) * (height / dec.MCUHeight) := hlen
    rw [hl]
    have ex : keep_x_mcus dec width * (dec.MCUWidth : Int) - 0
        = (((width / dec.MCUWidth) * dec.MCUWidth : Nat) : Int) := by
      unfold keep_x_mcus; push_cast; ring
    have ey : keep_y_mcus dec height * (dec.MCUHeight : Int) - 0
        = (((height / dec.MCUHeight) * dec.MCUHeight : Nat) : Int) := by
      unfold keep_y_mcus; push_cast; ring
    rw [ex, ey, Int.toNat_ofNat, Int.toNat_ofNat]
    ring

/-- A complete 6 x 12 frame cropped to 48 x 48: 18 blocks are kept and no output
position is stored twice. -/
theorem kept_blocks_tile_output_witness :
    (keep_x_mcus (frameDecoder 6 12) 48 ≤ (frameDecoder 6 12).MCUSPerRow
      ∧ keep_y_mcus (frameDecoder 6 12) 48 ≤ (frameDecoder 6 12).MCUSPerCol)
    ∧ (kept_blocks (frameDecoder 6 12) 48 48).length = 18
    ∧ ((jpeg_store_data (frameDecoder 6 12) blankRaster 48 48).writes.map position).Nodup :=
  ⟨⟨by decide, by decide⟩,
    (kept_blocks_tile_output (frameDecoder 6 12) blankRaster 48 48 (by decide) (by decide)
      frameDecoder_6_12_nodup (frameDecoder_grid 6 12)).2.2.1,
    (kept_blocks_tile_output (frameDecoder 6 12) blankRaster 48 48 (by decide) (by decide)
      frameDecoder_6_12_nodup (frameDecoder_grid 6 12)).2.2.2.2.2.2.2.2⟩

/-! ## The capture cycle: sampling after decoding (claim C8) -/

theorem start_of_equal (n : Nat) : Int.tdiv ((n : Int) - (n : Int)) 2 = 0 := by
  rw [sub_self]
  rfl

/-- When the cutout is the whole frame and the target is block-aligned, a
complete pass writes every cell that `cutout_get_data` reads: the cell read for
`offset` has index `offset`, a store of the pass went to it at position
`(cutout_col, cutout_row)`, and the cell holds the colour of that store. -/
theorem full_frame_cutout_reads_written_cells (cfg : FrameConfig) (dec : JPEGDecoder)
    (out_buf : Int → Nat) (offset : Nat)
    (hcols : cfg.CUTOUT_COLS = cfg.FRAME_BUFFER_COLS)
    (hrows : cfg.CUTOUT_ROWS = cfg.FRAME_BUFFER_ROWS)
    (hax : (cfg.CUTOUT_COLS / dec.MCUWidth) * dec.MCUWidth = cfg.CUTOUT_COLS)
    (hay : (cfg.CUTOUT_ROWS / dec.MCUHeight) * dec.MCUHeight = cfg.CUTOUT_ROWS)
    (hKx : keep_x_mcus dec cfg.CUTOUT_COLS ≤ dec.MCUSPerRow)
    (hKy : keep_y_mcus dec cfg.CUTOUT_ROWS ≤ dec.MCUSPerCol)
    (hnodup : (dec.blocks.map coord).Nodup)
    (hgrid : ∀ p : Int × Int, p ∈ dec.blocks.map coord ↔
      (0 ≤ p.1 ∧ p.1 < dec.MCUSPerRow ∧ 0 ≤ p.2 ∧ p.2 < dec.MCUSPerCol))
    (ho : offset < cfg.CUTOUT_COLS * cfg.CUTOUT_ROWS) :
    frame_buffer_index cfg offset = (offset : Int)
    ∧ ∃ w ∈ (jpeg_store_data dec out_buf cfg.CUTOUT_COLS cfg.CUTOUT_ROWS).writes,
        w.index = frame_buffer_index cfg offset
        ∧ w.current_x = ((translate cfg offset).cutout_col : Int)
        ∧ w.current_y = ((translate cfg offset).cutout_row : Int)
        ∧ (jpeg_store_data dec out_buf cfg.CUTOUT_COLS cfg.CUTOUT_ROWS).out_buf
            (frame_buffer_index cfg offset) = w.color := by
  have hw : 0 < cfg.CUTOUT_COLS := by
    rcases Nat.eq_zero_or_pos cfg.CUTOUT_COLS with h | h
    · rw [h] at ho; simp at ho
    · exact h
  have hc := translate_cutout_col cfg offset
  have hr := translate_cutout_row cfg offset
  have hclt : (translate cfg offset).cutout_col < cfg.CUTOUT_COLS := by
    rw [hc]; exact Nat.mod_lt _ hw
  have hrlt := cutout_row_lt cfg offset ho
  have hdm := Nat.div_add_mod offset cfg.CUTOUT_COLS
  have hidx : frame_buffer_index cfg offset
      = ((translate cfg offset).cutout_row : Int) * (cfg.CUTOUT_COLS : Int)
        + ((translate cfg offset).cutout_col : Int) := by
    unfold frame_buffer_index
    show (((translate cfg offset).cutout_row : Int) + cutout_row_start cfg)
          * (cfg.FRAME_BUFFER_COLS : Int)
        + (((translate cfg offset).cutout_col : Int) + cutout_col_start cfg) = _
    unfold cutout_row_start cutout_col_start
    rw [← hcols, ← hrows, start_of_equal, start_of_equal]
    ring
  have hoff : frame_buffer_index cfg offset = (offset : Int) := by
    rw [hidx, hc, hr]
    have : (cfg.CUTOUT_COLS : Int) * ((offset / cfg.CUTOUT_COLS : Nat) : Int)
        + ((offset % cfg.CUTOUT_COLS : Nat) : Int) = (offset : Int) := by exact_mod_cast hdm
    linarith [mul_comm (cfg.CUTOUT_COLS : Int) ((offset / cfg.CUTOUT_COLS : Nat) : Int)]
  have ex : keep_x_mcus dec cfg.CUTOUT_COLS * (dec.MCUWidth : Int) = (cfg.CUTOUT_COLS : Int) := by
    unfold keep_x_mcus; exact_mod_cast hax
  have ey : keep_y_mcus dec cfg.CUTOUT_ROWS * (dec.MCUHeight : Int) = (cfg.CUTOUT_ROWS : Int) := by
    unfold keep_y_mcus; exact_mod_cast hay
  have hp : (((translate cfg offset).cutout_col : Int), ((translate cfg offset).cutout_row : Int))
      ∈ (dec.blocks.flatMap (block_writes dec cfg.CUTOUT_COLS cfg.CUTOUT_ROWS)).map position := by
    rw [mem_positions dec cfg.CUTOUT_COLS cfg.CUTOUT_ROWS hKx hKy hgrid, ex, ey]
    exact ⟨by omega, by omega, by omega, by omega⟩
  obtain ⟨w, hwmem, hwpos⟩ := List.mem_map.1 hp
  have hwx : w.current_x = ((translate cfg offset).cutout_col : Int) := congrArg Prod.fst hwpos
  have hwy : w.current_y = ((translate cfg offset).cutout_row : Int) := congrArg Prod.snd hwpos
  obtain ⟨m, _, hm⟩ := List.mem_flatMap.1 hwmem
  obtain ⟨_, _, hi⟩ := block_writes_sound dec cfg.CUTOUT_COLS cfg.CUTOUT_ROWS m w hm
  have hwi : w.index = frame_buffer_index cfg offset := by rw [hi, hwx, hwy, hidx]
  refine ⟨hoff, w, ?_, hwi, hwx, hwy, ?_⟩
  · rw [jpeg_store_data_eq]; exact hwmem
  · rw [jpeg_store_data_eq, ← hwi]
    exact replay_of_mem _ out_buf
      (pass_writes_functional dec cfg.CUTOUT_COLS cfg.CUTOUT_ROWS hnodup) w hwmem

/-- C8 (evaluation at the failing input): a 48 x 48 cutout of the 96 x 96
frame, a complete frame of 6 x 12 blocks of 16 x 8 pixels, decoded as `loop()`
does over a blank raster. Every store of the pass goes to an index below
`48 * 48 = 2304`, while every offset of the cutout is read at an index of at
least `24 * 96 + 24 = 2328`: no cell that `cutout_get_data` reads was written.
For offset 0 the cell read still holds the old value 0 and the sample is 0, while
the pixel of the kept region at cutout position `(0, 0)`, of value 19001, went
to index 0. -/
theorem cutout_reads_unwritten_cells :
    (∀ w ∈ (jpeg_store_data (frameDecoder 6 12) blankRaster
              (sketchConfig 48 48).CUTOUT_COLS (sketchConfig 48 48).CUTOUT_ROWS).writes,
        0 ≤ w.index ∧ w.index < 2304)
    ∧ (∀ offset : Nat, offset < 48 * 48 →
        2328 ≤ frame_buffer_index (sketchConfig 48 48) offset
        ∧ ∀ w ∈ (jpeg_store_data (frameDecoder 6 12) blankRaster
              (sketchConfig 48 48).CUTOUT_COLS (sketchConfig 48 48).CUTOUT_ROWS).writes,
            w.index ≠ frame_buffer_index (sketchConfig 48 48) offset)
    ∧ frame_buffer_index (sketchConfig 48 48) 0 = 2328
    ∧ (jpeg_store_data (frameDecoder 6 12) blankRaster
          (sketchConfig 48 48).CUTOUT_COLS (sketchConfig 48 48).CUTOUT_ROWS).out_buf
        (frame_buffer_index (sketchConfig 48 48) 0) = 0
    ∧ (jpeg_store_data (frameDecoder 6 12) blankRaster
          (sketchConfig 48 48).CUTOUT_COLS (sketchConfig 48 48).CUTOUT_ROWS).out_buf 0 = 19001
    ∧ (cutout_get_data (sketchConfig 48 48)
          (jpeg_store_data (frameDecoder 6 12) blankRaster
            (sketchConfig 48 48).CUTOUT_COLS (sketchConfig 48 48).CUTOUT_ROWS).out_buf
          0 1 (fun _ => 7)).2 0 = 0
    ∧ pixel_f (swap_bytes 19001) ≠ 0 := by
  have hb : ∀ w ∈ (jpeg_store_data (frameDecoder 6 12) blankRaster 48 48).writes,
      0 ≤ w.index ∧ w.index < 2304 := by
    intro w hw
    have h := writes_index_bounds (frameDecoder 6 12) blankRaster 48 48 w hw
    norm_num at h
    exact h
  have hread : ∀ offset : Nat, offset < 48 * 48 →
      2328 ≤ frame_buffer_index (sketchConfig 48 48) offset := by
    intro offset _
    have hc := translate_cutout_col (sketchConfig 48 48) offset
    have hr := translate_cutout_row (sketchConfig 48 48) offset
    have hidx : frame_buffer_index (sketchConfig 48 48) offset
        = (((translate (sketchConfig 48 48) offset).cutout_row : Int) + 24) * 96
          + (((translate (sketchConfig 48 48) offset).cutout_col : Int) + 24) := rfl
    rw [hidx]
    omega
  have h0 : frame_buffer_index (sketchConfig 48 48) 0 = 2328 := by decide
  have hstale : (jpeg_store_data (frameDecoder 6 12) blankRaster 48 48).out_buf 2328 = 0 :=
    jpeg_store_data_outside (frameDecoder 6 12) blankRaster 48 48 2328 (Or.inr (by norm_num))
  have hcell := jpeg_store_data_cell (frameDecoder 6 12) blankRaster 48 48
    frameDecoder_6_12_nodup (frameBlock 6 1 3) (frameBlock_mem 6 12 1 3 (by decide) (by decide))
    (by decide) 0 0 (by decide) (by decide)
  have e0 : ((y_origin (frameDecoder 6 12) 48 (frameBlock 6 1 3) + ((0 : Nat) : Int)) * ((48 : Nat) : Int))
      + (x_origin (frameDecoder 6 12) 48 (frameBlock 6 1 3) + ((0 : Nat) : Int)) = 0 := by decide
  have hpix : (frameBlock 6 1 3).pImage (0 * (frameDecoder 6 12).MCUWidth + 0) = 19001 := by
    decide
  rw [e0, hpix] at hcell
  refine ⟨hb, fun offset ho => ⟨hread offset ho, fun w hw he => ?_⟩, h0, ?_, hcell, ?_, by decide⟩
  · have h1 := hb w hw
    have h2 := hread offset ho
    omega
  · rw [h0]; exact hstale
  · have hs := cutout_get_data_sample (sketchConfig 48 48)
      (jpeg_store_data (frameDecoder 6 12) blankRaster 48 48).out_buf 0 1 (fun _ => 7) 0
      (by decide)
    rw [Nat.add_zero, h0, hstale] at hs
    exact hs.trans (by decide)

/-! ## The capture cycle: an oversize transfer (claim C9) -/

/-- A payload longer than the buffer makes `arducam_transfer` return 0 and leave
the buffer as it was. -/
theorem arducam_transfer_oversize (fifo : List Nat) (buf : Nat → Nat) (buf_len : Nat)
    (h : fifo.length > buf_len) : arducam_transfer fifo buf buf_len = (0, buf) := by
  unfold arducam_transfer
  simp [h]

theorem capture_cycle_jpeg_size (cfg : FrameConfig) (decodeArray : (Nat → Nat) → JPEGDecoder)
    (fifo : List Nat) (jpeg_buffer : Nat → Nat) (pixel_buffer : Int → Nat) :
    (capture_cycle cfg decodeArray fifo jpeg_buffer pixel_buffer).jpeg_size
      = (arducam_transfer fifo jpeg_buffer 4096).1 := rfl

theorem capture_cycle_pixel_buffer (cfg : FrameConfig) (decodeArray : (Nat → Nat) → JPEGDecoder)
    (fifo : List Nat) (jpeg_buffer : Nat → Nat) (pixel_buffer : Int → Nat) :
    (capture_cycle cfg decodeArray fifo jpeg_buffer pixel_buffer).pixel_buffer
      = (jpeg_store_data (decodeArray (arducam_transfer fifo jpeg_buffer 4096).2) pixel_buffer
          cfg.CUTOUT_COLS cfg.CUTOUT_ROWS).out_buf := rfl

theorem capture_cycle_writes (cfg : FrameConfig) (decodeArray : (Nat → Nat) → JPEGDecoder)
    (fifo : List Nat) (jpeg_buffer : Nat → Nat) (pixel_buffer : Int → Nat) :
    (capture_cycle cfg decodeArray fifo jpeg_buffer pixel_buffer).writes
      = (jpeg_store_data (decodeArray (arducam_transfer fifo jpeg_buffer 4096).2) pixel_buffer
          cfg.CUTOUT_COLS cfg.CUTOUT_ROWS).writes := rfl

theorem capture_cycle_jpeg_buffer (cfg : FrameConfig) (decodeArray : (Nat → Nat) → JPEGDecoder)
    (fifo : List Nat) (jpeg_buffer : Nat → Nat) (pixel_buffer : Int → Nat) :
    (capture_cycle cfg decodeArray fifo jpeg_buffer pixel_buffer).jpeg_buffer
      = (arducam_transfer fifo jpeg_buffer 4096).2 := rfl

theorem replay_indep (ws : List PixelWrite) (i : Int) (h : ∃ w ∈ ws, w.index = i) :
    ∀ buf1 buf2 : Int → Nat, replay buf1 ws i = replay buf2 ws i := by
  induction ws with
  | nil =>
    obtain ⟨w, hw, _⟩ := h
    exact absurd hw (List.not_mem_nil w)
  | cons v ws ih =>
    intro buf1 buf2
    show replay (Function.update buf1 v.index v.color) ws i
      = replay (Function.update buf2 v.index v.color) ws i
    by_cases hin : ∃ w ∈ ws, w.index = i
    · exact ih hin _ _
    · have hnot : ∀ u ∈ ws, u.index ≠ i := fun u hu e => hin ⟨u, hu, e⟩
      rw [replay_of_not_mem ws i _ hnot, replay_of_not_mem ws i _ hnot]
      obtain ⟨w, hw, hwi⟩ := h
      rcases List.mem_cons.1 hw with rfl | hw2
      · rw [hwi]; simp
      · exact absurd ⟨w, hw2, hwi⟩ hin

theorem replay_idem (buf : Int → Nat) (ws : List PixelWrite) :
    replay (replay buf ws) ws = replay buf ws := by
  funext i
  by_cases hin : ∃ w ∈ ws, w.index = i
  · exact replay_indep ws i hin _ _
  · exact replay_of_not_mem ws i _ (fun u hu e => hin ⟨u, hu, e⟩)

theorem jpeg_store_data_idem (dec : JPEGDecoder) (out_buf : Int → Nat) (width height : Nat) :
    (jpeg_store_data dec (jpeg_store_data dec out_buf width height).out_buf width height).out_buf
      = (jpeg_store_data dec out_buf width height).out_buf := by
  rw [jpeg_store_data_eq dec (jpeg_store_data dec out_buf width height).out_buf,
    jpeg_store_data_eq dec out_buf]
  exact replay_idem _ _

theorem jpeg_store_data_no_blocks (dec : JPEGDecoder) (out_buf : Int → Nat) (width height : Nat)
    (h : dec.blocks = []) : (jpeg_store_data dec out_buf width height).out_buf = out_buf := by
  rw [jpeg_store_data_eq, h]
  rfl

/-- An oversize cycle that follows any capture cycle replays the stores of that
cycle and leaves both buffers as they were. -/
theorem oversize_after_cycle (cfg : FrameConfig) (decodeArray : (Nat → Nat) → JPEGDecoder)
    (fifo0 : List Nat) (jpeg_buffer0 : Nat → Nat) (pixel_buffer0 : Int → Nat)
    (fifo : List Nat) (hlen : fifo.length > 4096) :
    (capture_cycle cfg decodeArray fifo
        (capture_cycle cfg decodeArray fifo0 jpeg_buffer0 pixel_buffer0).jpeg_buffer
        (capture_cycle cfg decodeArray fifo0 jpeg_buffer0 pixel_buffer0).pixel_buffer).pixel_buffer
      = (capture_cycle cfg decodeArray fifo0 jpeg_buffer0 pixel_buffer0).pixel_buffer := by
  rw [capture_cycle_pixel_buffer cfg decodeArray fifo,
    arducam_transfer_oversize fifo _ 4096 hlen,
    capture_cycle_pixel_buffer cfg decodeArray fifo0, capture_cycle_jpeg_buffer]
  exact jpeg_store_data_idem _ _ _ _

theorem loop_cycles_append (cfg : FrameConfig) (decodeArray : (Nat → Nat) → JPEGDecoder)
    (earlier : List (List Nat)) (fifo0 : List Nat) (b : Buffers) :
    loop_cycles cfg decodeArray (earlier ++ [fifo0]) b
      = { jpeg_buffer :=
            (capture_cycle cfg decodeArray fifo0
              (loop_cycles cfg decodeArray earlier b).jpeg_buffer
              (loop_cycles cfg decodeArray earlier b).pixel_buffer).jpeg_buffer
          pixel_buffer :=
            (capture_cycle cfg decodeArray fifo0
              (loop_cycles cfg decodeArray earlier b).jpeg_buffer
              (loop_cycles cfg decodeArray earlier b).pixel_buffer).pixel_buffer } := by
  unfold loop_cycles
  rw [List.foldl_append]
  rfl

/-- C9: in every state that the sketch reaches from power-on by any number of
capture cycles (the decoder yields no block from the buffer that no transfer has
written yet), a payload longer than the 4096-byte transfer buffer makes
`arducam_transfer` return 0 without writing to the buffer, and the capture cycle
of `loop()` leaves `jpeg_buffer` and `pixel_buffer` equal to what they were,
whatever decoder state `decodeArray` derives from the stale buffer. -/
theorem oversize_cycle_keeps_raster (cfg : FrameConfig)
    (decodeArray : (Nat → Nat) → JPEGDecoder) (boot : Buffers)
    (earlier : List (List Nat)) (fifo : List Nat)
    (hboot : earlier = [] → (decodeArray boot.jpeg_buffer).blocks = [])
    (hlen : fifo.length > 4096) :
    arducam_transfer fifo (loop_cycles cfg decodeArray earlier boot).jpeg_buffer 4096
      = (0, (loop_cycles cfg decodeArray earlier boot).jpeg_buffer)
    ∧ (capture_cycle cfg decodeArray fifo
        (loop_cycles cfg decodeArray earlier boot).jpeg_buffer
        (loop_cycles cfg decodeArray earlier boot).pixel_buffer).jpeg_size = 0
    ∧ (capture_cycle cfg decodeArray fifo
        (loop_cycles cfg decodeArray earlier boot).jpeg_buffer
        (loop_cycles cfg decodeArray earlier boot).pixel_buffer).jpeg_buffer
      = (loop_cycles cfg decodeArray earlier boot).jpeg_buffer
    ∧ (capture_cycle cfg decodeArray fifo
        (loop_cycles cfg decodeArray earlier boot).jpeg_buffer
        (loop_cycles cfg decodeArray earlier boot).pixel_buffer).pixel_buffer
      = (loop_cycles cfg decodeArray earlier boot).pixel_buffer := by
  have ht := arducam_transfer_oversize fifo
    (loop_cycles cfg decodeArray earlier boot).jpeg_buffer 4096 hlen
  refine ⟨ht, ?_, ?_, ?_⟩
  · rw [capture_cycle_jpeg_size, ht]
  · rw [capture_cycle_jpeg_buffer, ht]
  · rcases List.eq_nil_or_concat earlier with hnil | ⟨init, fifo0, hcat⟩
    · have hb := hboot hnil
      subst hnil
      have hstate : loop_cycles cfg decodeArray [] boot = boot := rfl
      rw [hstate] at ht ⊢
      rw [capture_cycle_pixel_buffer, ht]
      exact jpeg_store_data_no_blocks _ _ _ _ hb
    · rw [List.concat_eq_append] at hcat
      subst hcat
      rw [loop_cycles_append]
      exact oversize_after_cycle cfg decodeArray fifo0 _ _ fifo hlen

theorem smallPayload_decodes :
    markerDecode (arducam_transfer smallPayload bootJpeg 4096).2 = frameDecoder 6 12 := by
  have hfit : ¬ smallPayload.length > 4096 := by decide
  have h2 : (arducam_transfer smallPayload bootJpeg 4096).2
      = transfer_bytes bootJpeg 0 smallPayload := by
    unfold arducam_transfer
    simp only [hfit, if_false]
  have hrest : ∀ (l : List Nat) (buf : Nat → Nat) (index k : Nat), k < index →
      transfer_bytes buf index l k = buf k := by
    intro l
    induction l with
    | nil => intro buf index k _; rfl
    | cons b l ih =>
      intro buf index k hk
      show transfer_bytes (Function.update buf index b) (index + 1) l k = buf k
      rw [ih _ _ _ (by omega)]
      exact Function.update_noteq (by omega) _ _
  have e0 : transfer_bytes bootJpeg 0 smallPayload 0 = 0xFF := by
    show transfer_bytes (Function.update bootJpeg 0 0xFF) 1 (0xD8 :: List.replicate 98 0) 0 = 0xFF
    rw [hrest _ _ 1 0 (by decide)]
    simp
  have e1 : transfer_bytes bootJpeg 0 smallPayload 1 = 0xD8 := by
    show transfer_bytes (Function.update (Function.update bootJpeg 0 0xFF) 1 0xD8) 2
      (List.replicate 98 0) 1 = 0xD8
    rw [hrest _ _ 2 1 (by decide)]
    simp
  rw [h2]
  unfold markerDecode
  rw [e0, e1]
  simp

/-- One capture of 100 bytes from power-on fills the raster (cell 0 holds 1);
the 5000-byte payload that follows returns 0 and leaves both buffers equal. -/
theorem oversize_cycle_keeps_raster_witness :
    (([smallPayload] = [] → (markerDecode bootJpeg).blocks = [])
      ∧ oversizePayload.length > 4096)
    ∧ (loop_cycles (sketchConfig 96 96) markerDecode [smallPayload]
        { jpeg_buffer := bootJpeg, pixel_buffer := blankRaster }).pixel_buffer 0 = 1
    ∧ (capture_cycle (sketchConfig 96 96) markerDecode oversizePayload
        (loop_cycles (sketchConfig 96 96) markerDecode [smallPayload]
          { jpeg_buffer := bootJpeg, pixel_buffer := blankRaster }).jpeg_buffer
        (loop_cycles (sketchConfig 96 96) markerDecode [smallPayload]
          { jpeg_buffer := bootJpeg, pixel_buffer := blankRaster }).pixel_buffer).jpeg_size = 0
    ∧ (capture_cycle (sketchConfig 96 96) markerDecode oversizePayload
        (loop_cycles (sketchConfig 96 96) markerDecode [smallPayload]
          { jpeg_buffer := bootJpeg, pixel_buffer := blankRaster }).jpeg_buffer
        (loop_cycles (sketchConfig 96 96) markerDecode [smallPayload]
          { jpeg_buffer := bootJpeg, pixel_buffer := blankRaster }).pixel_buffer).pixel_buffer
      = (loop_cycles (sketchConfig 96 96) markerDecode [smallPayload]
          { jpeg_buffer := bootJpeg, pixel_buffer := blankRaster }).pixel_buffer := by
  have hboot : [smallPayload] = [] → (markerDecode bootJpeg).blocks = [] :=
    fun h => absurd h (List.cons_ne_nil _ _)
  have hlen : oversizePayload.length > 4096 := by
    unfold oversizePayload
    rw [List.length_replicate]
    decide
  have hmain := oversize_cycle_keeps_raster (sketchConfig 96 96) markerDecode
    { jpeg_buffer := bootJpeg, pixel_buffer := blankRaster } [smallPayload] oversizePayload
    hboot hlen
  have hstate : (loop_cycles (sketchConfig 96 96) markerDecode [smallPayload]
      { jpeg_buffer := bootJpeg, pixel_buffer := blankRaster }).pixel_buffer
      = (jpeg_store_data (markerDecode (arducam_transfer smallPayload bootJpeg 4096).2)
          blankRaster 96 96).out_buf :=
    capture_cycle_pixel_buffer (sketchConfig 96 96) markerDecode smallPayload bootJpeg blankRaster
  have hcell := jpeg_store_data_cell (frameDecoder 6 12) blankRaster 96 96
    frameDecoder_6_12_nodup (frameBlock 6 0 0) (frameBlock_mem 6 12 0 0 (by decide) (by decide))
    (by decide) 0 0 (by decide) (by decide)
  have e0 : ((y_origin (frameDecoder 6 12) 96 (frameBlock 6 0 0) + ((0 : Nat) : Int))
        * ((96 : Nat) : Int))
      + (x_origin (frameDecoder 6 12) 96 (frameBlock 6 0 0) + ((0 : Nat) : Int)) = 0 := by decide
  have hpix : (frameBlock 6 0 0).pImage (0 * (frameDecoder 6 12).MCUWidth + 0) = 1 := by decide
  rw [e0, hpix] at hcell
  refine ⟨⟨hboot, hlen⟩, ?_, hmain.2.1, hmain.2.2.2⟩
  rw [hstate, smallPayload_decodes]
  exact hcell

/-! ## Evaluations on concrete inputs -/

/-- Block (1, 3) of a 6 x 12 frame cropped to 48 x 48 is kept with origin (0, 0):
cell `2 * 48 + 5` receives its pixel 37 and cell `2 * 48 + 16`, right of the
block, keeps its zero. -/
theorem store_mcu_places_block_witness :
    skips (frameDecoder 6 12) 48 48 (frameBlock 6 1 3) = false
    ∧ (store_mcu (frameDecoder 6 12) 48 48 blankState (frameBlock 6 1 3)).out_buf (2 * 48 + 5)
        = 19038
    ∧ (store_mcu (frameDecoder 6 12) 48 48 blankState (frameBlock 6 1 3)).out_buf (2 * 48 + 16)
        = 0 := by
  have hk : skips (frameDecoder 6 12) 48 48 (frameBlock 6 1 3) = false := by decide
  have h := (store_mcu_places_block (frameDecoder 6 12) 48 48 blankState (frameBlock 6 1 3)).1 hk
  have ey : ((frameBlock 6 1 3).MCUy - skip_start_y_mcus (frameDecoder 6 12) 48)
      * (((frameDecoder 6 12).MCUHeight : Nat) : Int) = 0 := by decide
  have ex : ((frameBlock 6 1 3).MCUx - skip_start_x_mcus (frameDecoder 6 12) 48)
      * (((frameDecoder 6 12).MCUWidth : Nat) : Int) = 0 := by decide
  rw [ey, ex] at h
  refine ⟨hk, ?_, ?_⟩
  · have h1 := h.1 2 5 (by decide) (by decide)
    have hp : (frameBlock 6 1 3).pImage (2 * (frameDecoder 6 12).MCUWidth + 5) = 19038 := by decide
    rw [hp] at h1
    have hi : ((0 : Int) + ((2 : Nat) : Int)) * ((48 : Nat) : Int) + (0 + ((5 : Nat) : Int))
        = 2 * 48 + 5 := by decide
    rw [hi] at h1
    exact h1
  · have h2 := h.2 (2 * 48 + 16) (by
      rintro ⟨row, col, hr, hc, he⟩
      have hw : (frameDecoder 6 12).MCUWidth = 16 := rfl
      rw [hw] at hc
      push_cast at he
      omega)
    exact h2

/-- Two samples from a raster whose only non-zero cell is the one read for
offset 0: `0x00F8` is swapped to `0xF800`, pure red, packed as `0xF80000`; the
third output cell keeps its old value. -/
theorem cutout_get_data_fills_witness :
    (cutout_get_data (sketchConfig 48 48) oneRedCell 0 2 (fun _ => 7)).1 = 0
    ∧ (cutout_get_data (sketchConfig 48 48) oneRedCell 0 2 (fun _ => 7)).2 0 = 0xF80000
    ∧ (cutout_get_data (sketchConfig 48 48) oneRedCell 0 2 (fun _ => 7)).2 1 = 0
    ∧ (cutout_get_data (sketchConfig 48 48) oneRedCell 0 2 (fun _ => 7)).2 2 = 7 :=
  ⟨(cutout_get_data_fills (sketchConfig 48 48) oneRedCell 0 2 (fun _ => 7)).1,
   ((cutout_get_data_fills (sketchConfig 48 48) oneRedCell 0 2 (fun _ => 7)).2.1 0
      (by decide)).trans (by decide),
   ((cutout_get_data_fills (sketchConfig 48 48) oneRedCell 0 2 (fun _ => 7)).2.1 1
      (by decide)).trans (by decide),
   (cutout_get_data_fills (sketchConfig 48 48) oneRedCell 0 2 (fun _ => 7)).2.2.1 2 (by decide)⟩

set_option maxRecDepth 100000 in
theorem kept_count_wide_target :
    ((frameDecoder 6 12).blocks.filter fun m => !skips (frameDecoder 6 12) 200 48 m).length
      = 36 := by
  decide

/-- A target wider than the source (200 x 48 against a 96 pixel wide frame): 36
blocks of 128 pixels are stored, all at indices inside the 200 x 48 buffer. -/
theorem jpeg_store_data_writes_in_bounds_witness :
    (jpeg_store_data (frameDecoder 6 12) blankRaster 200 48).writes.length = 36 * 128
    ∧ ∀ w ∈ (jpeg_store_data (frameDecoder 6 12) blankRaster 200 48).writes,
        0 ≤ w.current_x ∧ w.current_x < 200 ∧ 0 ≤ w.current_y ∧ w.current_y < 48
        ∧ 0 ≤ w.index ∧ w.index < 200 * 48 := by
  constructor
  · rw [jpeg_store_data_eq]
    show ((frameDecoder 6 12).blocks.flatMap (block_writes (frameDecoder 6 12) 200 48)).length = _
    rw [length_flatMap_block_writes, kept_count_wide_target]
    rfl
  · intro w hw
    obtain ⟨a, b, c, d, _, e, f⟩ :=
      (jpeg_store_data_writes_in_bounds (frameDecoder 6 12) blankRaster 200 48).1 w hw
    exact ⟨a, b, c, d, e, f⟩

end ArducamEI
